import Mathlib

/-!
Verification of the StateLedger core (hash-chained append-only ledger with
snapshot reconstruction) against its natural-language specification.

The Go sources under `internal/ledger` and `internal/collectors` are embedded
shallowly: the SQLite-backed record table becomes a `List Record` in ascending
id order, Go strings become Lean `String`s (bytes taken via UTF-8), `int64`
becomes `Int`, and SHA-256 is implemented executably over byte lists.
Wall-clock fields (`VerifyResult.Timestamp`, `ReconstructionReport.RequestTime`)
are omitted: no claim mentions them.
-/

namespace StateLedger

/-! ## SHA-256 over byte lists (bytes are `Nat`s below 256) -/

/-- Modulus for 32-bit words. -/
def w32 : Nat := 4294967296

/-- Right rotation of a 32-bit word. -/
def rotr (n x : Nat) : Nat := ((x >>> n) ||| (x <<< (32 - n))) % w32

/-- Logical right shift. -/
def shr (n x : Nat) : Nat := x >>> n

/-- SHA-256 Σ0. -/
def bigSigma0 (x : Nat) : Nat := (rotr 2 x) ^^^ (rotr 13 x) ^^^ (rotr 22 x)

/-- SHA-256 Σ1. -/
def bigSigma1 (x : Nat) : Nat := (rotr 6 x) ^^^ (rotr 11 x) ^^^ (rotr 25 x)

/-- SHA-256 σ0. -/
def smallSigma0 (x : Nat) : Nat := (rotr 7 x) ^^^ (rotr 18 x) ^^^ (shr 3 x)

/-- SHA-256 σ1. -/
def smallSigma1 (x : Nat) : Nat := (rotr 17 x) ^^^ (rotr 19 x) ^^^ (shr 10 x)

/-- SHA-256 choice function (the complement is taken modulo `2^32`). -/
def chF (x y z : Nat) : Nat := (x &&& y) ^^^ ((x ^^^ (w32 - 1)) &&& z)

/-- SHA-256 majority function. -/
def majF (x y z : Nat) : Nat := (x &&& y) ^^^ (x &&& z) ^^^ (y &&& z)

/-- The 64 SHA-256 round constants. -/
def sha256K : List Nat :=
  [1116352408, 1899447441, 3049323471, 3921009573, 961987163, 1508970993,
   2453635748, 2870763221, 3624381080, 310598401, 607225278, 1426881987,
   1925078388, 2162078206, 2614888103, 3248222580, 3835390401, 4022224774,
   264347078, 604807628, 770255983, 1249150122, 1555081692, 1996064986,
   2554220882, 2821834349, 2952996808, 3210313671, 3336571891, 3584528711,
   113926993, 338241895, 666307205, 773529912, 1294757372, 1396182291,
   1695183700, 1986661051, 2177026350, 2456956037, 2730485921, 2820302411,
   3259730800, 3345764771, 3516065817, 3600352804, 4094571909, 275423344,
   430227734, 506948616, 659060556, 883997877, 958139571, 1322822218,
   1537002063, 1747873779, 1955562222, 2024104815, 2227730452, 2361852424,
   2428436474, 2756734187, 3204031479, 3329325298]

/-- The SHA-256 initial hash state. -/
def sha256Init : List Nat :=
  [1779033703, 3144134277, 1013904242, 2773480762,
   1359893119, 2600822924, 528734635, 1541459225]

/-- Group a byte list into 32-bit big-endian words (dropping a ragged tail,
which never occurs on padded input). -/
def wordsOfBytes : List Nat → List Nat
  | b0 :: b1 :: b2 :: b3 :: rest => (((b0 * 256 + b1) * 256 + b2) * 256 + b3) :: wordsOfBytes rest
  | _ => []

/-- Extend the 16 message words to 64 via the SHA-256 message schedule. -/
def extendW (fuel : Nat) (acc : List Nat) : List Nat :=
  match fuel with
  | 0 => acc
  | fuel + 1 =>
    let n := acc.length
    let g (i : Nat) : Nat := acc.getD i 0
    let next := (smallSigma1 (g (n - 2)) + g (n - 7) + smallSigma0 (g (n - 15)) + g (n - 16)) % w32
    extendW fuel (acc ++ [next])

/-- One SHA-256 compression round on the eight-word working state. -/
def compressStep (st : List Nat) (kw : Nat × Nat) : List Nat :=
  match st with
  | [a, b, c, d, e, f, g, h] =>
    let t1 := (h + bigSigma1 e + chF e f g + kw.1 + kw.2) % w32
    let t2 := (bigSigma0 a + majF a b c) % w32
    [(t1 + t2) % w32, a, b, c, (d + t1) % w32, e, f, g]
  | st => st

/-- Process one 64-byte block. -/
def processBlock (h : List Nat) (block : List Nat) : List Nat :=
  let ws := extendW 48 (wordsOfBytes block)
  let st := (sha256K.zip ws).foldl compressStep h
  (h.zip st).map (fun p => (p.1 + p.2) % w32)

/-- Split a byte list into 64-byte chunks (fuel-bounded recursion). -/
def chunks64 : Nat → List Nat → List (List Nat)
  | 0, _ => []
  | _, [] => []
  | fuel + 1, bytes => bytes.take 64 :: chunks64 fuel (bytes.drop 64)

/-- SHA-256 padding: `0x80`, zeros, then the 8-byte big-endian bit length. -/
def padBytes (msg : List Nat) : List Nat :=
  let len := msg.length
  let zeros := (119 - (len % 64)) % 64
  let lenBits := len * 8
  let lenBytes := (List.range 8).map (fun i => (lenBits >>> ((7 - i) * 8)) % 256)
  msg ++ [128] ++ List.replicate zeros 0 ++ lenBytes

/-- SHA-256 digest of a byte list, as 32 bytes. -/
def sha256Bytes (msg : List Nat) : List Nat :=
  let padded := padBytes msg
  let final := (chunks64 (padded.length / 64) padded).foldl processBlock sha256Init
  final.flatMap (fun x => [(x >>> 24) % 256, (x >>> 16) % 256, (x >>> 8) % 256, x % 256])

/-- Lowercase hexadecimal digit for a value below 16. -/
def hexDigit (n : Nat) : Char := if n < 10 then Char.ofNat (48 + n) else Char.ofNat (87 + n)

/-- Render a byte list as lowercase hexadecimal, matching Go
`hex.EncodeToString`. -/
def hexOfBytes (bytes : List Nat) : String :=
  ⟨bytes.flatMap (fun b => [hexDigit (b / 16), hexDigit (b % 16)])⟩

/-- UTF-8 encoding of a single character. -/
def utf8Bytes (c : Char) : List Nat :=
  let n := c.toNat
  if n < 128 then [n]
  else if n < 2048 then [192 + n / 64, 128 + n % 64]
  else if n < 65536 then [224 + n / 4096, 128 + (n / 64) % 64, 128 + n % 64]
  else [240 + n / 262144, 128 + (n / 4096) % 64, 128 + (n / 64) % 64, 128 + n % 64]

/-- The bytes of a string, as Go sees it (`[]byte(s)` is UTF-8). -/
def strBytes (s : String) : List Nat := s.data.flatMap utf8Bytes

/-- SHA-256 digest of a string's bytes, rendered as lowercase hex: the
composition Go performs as `hex.EncodeToString(sha256.Sum256([]byte(s))[:])`. -/
def sha256hex (s : String) : String := hexOfBytes (sha256Bytes (strBytes s))

example : sha256hex "" = "e3b0c44298fc1c149afbf4c8996fb92427ae41e4649b934ca495991b7852b855" := by decide

example : sha256hex "abc" = "ba7816bf8f01cfea414140de5dae2223b00361a396177a9cb410ff61f20015ad" := by decide

/-! ## Go string helpers -/

/-- Go `unicode.IsSpace`: the code points `strings.TrimSpace` strips. -/
def goIsSpace (c : Char) : Bool :=
  [9, 10, 11, 12, 13, 32, 133, 160, 5760, 8192, 8193, 8194, 8195, 8196, 8197, 8198,
   8199, 8200, 8201, 8202, 8232, 8233, 8239, 8287, 12288].contains c.toNat

/-- Go `strings.TrimSpace`. -/
def goTrimSpace (s : String) : String :=
  ⟨((s.data.dropWhile goIsSpace).reverse.dropWhile goIsSpace).reverse⟩

example : goTrimSpace "  a b\t" = "a b" := by decide

/-- Decimal value of a digit list (most significant first). -/
def decDigits (ds : List Char) : Nat := ds.foldl (fun a c => a * 10 + (c.toNat - 48)) 0

/-- Character-level core of `strconv.ParseInt(s, 10, 64)`: optional sign,
decimal digits only, `none` on empty input, stray characters, or 64-bit
overflow. -/
def parseInt64Core : List Char → Option Int
  | [] => none
  | c :: cs =>
    let neg := c = '-'
    let ds := if c = '-' ∨ c = '+' then cs else c :: cs
    if ds.isEmpty then none
    else if ds.all Char.isDigit then
      let n := decDigits ds
      if neg then (if n ≤ 2 ^ 63 then some (-(n : Int)) else none)
      else (if n < 2 ^ 63 then some (n : Int) else none)
    else none

/-- Go `strconv.ParseInt(s, 10, 64)`. -/
def parseInt64 (s : String) : Option Int := parseInt64Core s.data

example : parseInt64 "42" = some 42 := by decide
example : parseInt64 "-007" = some (-7) := by decide
example : parseInt64 "1a" = none := by decide
example : parseInt64 "" = none := by decide

/-! ## Record store (`internal/ledger/ledger.go`)

The `ledger_records` table is modelled as a `List Record` in ascending id
order (the insertion order of an append-only autoincrement table). -/

/-- One ledger row (`Record` in `ledger.go`); Go's `Type` field is `type`. -/
structure Record where
  id : Int
  timestamp : Int
  type : String
  source : String
  payload : String
  hash : String
  prevHash : String
deriving DecidableEq, Inhabited

/-- Input to `Append` (`RecordInput` in `ledger.go`). -/
structure RecordInput where
  timestamp : Int
  type : String
  source : String
  payload : String
deriving DecidableEq

/-- Outcome of `VerifyChain` (`VerifyResult` in `ledger.go`); the wall-clock
`Timestamp` field is omitted. -/
structure VerifyResult where
  ok : Bool
  failedId : Int
  reason : String
  checked : Int
deriving DecidableEq

/-- The link hash: `computeHash` in `ledger.go`, which hashes
`fmt.Sprintf("%s|%d|%s|%s|%s", prevHash, ts, rtype, source, payload)`. -/
def computeHash (prevHash : String) (ts : Int) (rtype source payload : String) : String :=
  sha256hex (prevHash ++ "|" ++ toString ts ++ "|" ++ rtype ++ "|" ++ source ++ "|" ++ payload)

/-- The chain tip (`lastHash` in `ledger.go`): hash of the row with the
largest id, or `""` when the table is empty (`sql.ErrNoRows`). -/
def lastHash : List Record → String
  | [] => ""
  | [r] => r.hash
  | _ :: r :: rs => lastHash (r :: rs)

/-- The id of the last row, 0 for an empty table. -/
def lastId : List Record → Int
  | [] => 0
  | [r] => r.id
  | _ :: r :: rs => lastId (r :: rs)

/-- The id SQLite's autoincrement assigns to the next insert in an
append-only table: one more than the last id, starting from 1. -/
def nextId (l : List Record) : Int := lastId l + 1

/-- `Append` in `ledger.go`: reject blank type or payload, read the tip,
seal the link hash, insert the row. -/
def Append (l : List Record) (input : RecordInput) : Except String (List Record × Record) :=
  if goTrimSpace input.type = "" then .error "type required"
  else if goTrimSpace input.payload = "" then .error "payload required"
  else
    let prevHash := lastHash l
    let hash := computeHash prevHash input.timestamp input.type input.source input.payload
    let r : Record :=
      { id := nextId l, timestamp := input.timestamp, type := input.type,
        source := input.source, payload := input.payload, hash := hash, prevHash := prevHash }
    .ok (l ++ [r], r)

/-- Run one `Append`; a failed call leaves the table unchanged. -/
def applyAppend (l : List Record) (input : RecordInput) : List Record :=
  match Append l input with
  | .ok p => p.1
  | .error _ => l

/-- The ledger produced by a sequence of `Append` calls on a fresh store
(failed calls leave no trace). -/
def buildLedger (inputs : List RecordInput) : List Record :=
  inputs.foldl applyAppend []

/-- Chain predicate: starting from tip hash `prev` and last id `n`, the list
is correctly id-numbered, prev-linked and link-hashed. -/
def chainFrom (prev : String) (n : Int) : List Record → Prop
  | [] => True
  | r :: rs =>
    r.id = n + 1 ∧ r.prevHash = prev ∧
      r.hash = computeHash prev r.timestamp r.type r.source r.payload ∧
      chainFrom r.hash (n + 1) rs

/-- The chain tip seen from running prefix hash `prev`. -/
def lastHashFrom (prev : String) : List Record → String
  | [] => prev
  | r :: rs => lastHashFrom r.hash rs

/-- The last id seen from running last id `n`. -/
def lastIdFrom (n : Int) : List Record → Int
  | [] => n
  | r :: rs => lastIdFrom r.id rs

theorem lastHashFrom_eq (l : List Record) (prev : String) :
    lastHashFrom prev l = if l.isEmpty then prev else lastHash l := by
  induction l generalizing prev with
  | nil => rfl
  | cons r rs ih =>
    show lastHashFrom r.hash rs = _
    rw [ih r.hash]
    cases rs with
    | nil => rfl
    | cons a as => rfl

theorem lastIdFrom_eq (l : List Record) (n : Int) :
    lastIdFrom n l = if l.isEmpty then n else lastId l := by
  induction l generalizing n with
  | nil => rfl
  | cons r rs ih =>
    show lastIdFrom r.id rs = _
    rw [ih r.id]
    cases rs with
    | nil => rfl
    | cons a as => rfl

theorem chainFrom_lastId {prev : String} {n : Int} {l : List Record}
    (h : chainFrom prev n l) : lastIdFrom n l = n + l.length := by
  induction l generalizing prev n with
  | nil => simp [lastIdFrom]
  | cons r rs ih =>
    obtain ⟨hid, -, -, hrest⟩ := h
    show lastIdFrom r.id rs = _
    rw [hid, ih hrest]
    simp only [List.length_cons]
    push_cast
    ring

theorem chainFrom_snoc {prev : String} {n : Int} {l : List Record} {r : Record}
    (h : chainFrom prev n l)
    (hid : r.id = n + l.length + 1)
    (hprev : r.prevHash = lastHashFrom prev l)
    (hhash : r.hash = computeHash r.prevHash r.timestamp r.type r.source r.payload) :
    chainFrom prev n (l ++ [r]) := by
  induction l generalizing prev n with
  | nil =>
    have hp : r.prevHash = prev := hprev
    refine ⟨by simpa using hid, hp, ?_, trivial⟩
    rw [hhash, hp]
  | cons a as ih =>
    obtain ⟨haid, haprev, hahash, hrest⟩ := h
    refine ⟨haid, haprev, hahash, ?_⟩
    refine ih hrest ?_ ?_
    · rw [hid]
      simp only [List.length_cons]
      push_cast
      ring
    · exact hprev

theorem buildLedger_chain (inputs : List RecordInput) :
    chainFrom "" 0 (buildLedger inputs) := by
  suffices h : ∀ l, chainFrom "" 0 l → chainFrom "" 0 (inputs.foldl applyAppend l) from
    h [] trivial
  induction inputs with
  | nil => intro l hl; exact hl
  | cons inp rest ih =>
    intro l hl
    refine ih (applyAppend l inp) ?_
    by_cases h1 : goTrimSpace inp.type = ""
    · simp only [applyAppend, Append, if_pos h1]
      exact hl
    · by_cases h2 : goTrimSpace inp.payload = ""
      · simp only [applyAppend, Append, if_neg h1, if_pos h2]
        exact hl
      · simp only [applyAppend, Append, if_neg h1, if_neg h2]
        refine chainFrom_snoc hl ?_ ?_ rfl
        · have hlast := chainFrom_lastId hl
          rw [lastIdFrom_eq] at hlast
          show nextId l = 0 + ↑l.length + 1
          cases l with
          | nil => simp [nextId, lastId]
          | cons a as =>
            simp at hlast
            simp only [nextId, List.length_cons]
            push_cast
            omega
        · show lastHash l = lastHashFrom "" l
          rw [lastHashFrom_eq]
          cases l with
          | nil => rfl
          | cons a as => rfl

theorem chainFrom_id_lt {prev : String} {n : Int} {l : List Record}
    (h : chainFrom prev n l) : ∀ r ∈ l, n < r.id := by
  induction l generalizing prev n with
  | nil => intro r hr; cases hr
  | cons a as ih =>
    obtain ⟨haid, -, -, hrest⟩ := h
    intro r hr
    rcases List.mem_cons.mp hr with h1 | h2
    · subst h1; omega
    · have := ih hrest r h2
      omega

theorem chainFrom_first {prev : String} {n : Int} {l : List Record}
    (h : chainFrom prev n l) : ∀ r ∈ l, r.id = n + 1 → r.prevHash = prev := by
  induction l generalizing prev n with
  | nil => intro r hr; cases hr
  | cons a as ih =>
    obtain ⟨haid, haprev, -, hrest⟩ := h
    intro r hr hid
    rcases List.mem_cons.mp hr with h1 | h2
    · subst h1; exact haprev
    · have := chainFrom_id_lt hrest r h2
      omega

theorem chainFrom_link {prev : String} {n : Int} {l : List Record}
    (h : chainFrom prev n l) :
    ∀ r ∈ l, n + 1 < r.id → ∃ p ∈ l, p.id + 1 = r.id ∧ r.prevHash = p.hash := by
  induction l generalizing prev n with
  | nil => intro r hr; cases hr
  | cons a as ih =>
    obtain ⟨haid, haprev, -, hrest⟩ := h
    intro r hr hlt
    rcases List.mem_cons.mp hr with h1 | h2
    · subst h1; omega
    · rcases Int.lt_iff_add_one_le.mp (chainFrom_id_lt hrest r h2) with hge
      rcases eq_or_lt_of_le hge with heq | hgt
      · exact ⟨a, List.mem_cons_self a as, by omega,
          chainFrom_first hrest r h2 (by omega)⟩
      · obtain ⟨p, hp, hpid, hph⟩ := ih hrest r h2 (by omega)
        exact ⟨p, List.mem_cons_of_mem a hp, hpid, hph⟩

/-! ## Claims C1 and C2 -/

/-- Spec §6.2 link-hash input: the octet concatenation of prev hash, decimal
timestamp, kind, source and payload joined by the ASCII pipe `0x7C`, hashed
with SHA-256 and rendered as lowercase hex. Written from the spec's words,
to be compared with `computeHash` from the source. -/
def specLinkDigest (prevHash : String) (ts : Int) (kind source payload : String) : String :=
  hexOfBytes (sha256Bytes
    (strBytes prevHash ++ [0x7c] ++ strBytes (toString ts) ++ [0x7c] ++
     strBytes kind ++ [0x7c] ++ strBytes source ++ [0x7c] ++ strBytes payload))

theorem strBytes_append (a b : String) : strBytes (a ++ b) = strBytes a ++ strBytes b := by
  unfold strBytes
  rw [String.data_append, List.flatMap_append]

theorem computeHash_eq_spec (p : String) (ts : Int) (k s pl : String) :
    computeHash p ts k s pl = specLinkDigest p ts k s pl := by
  unfold computeHash sha256hex specLinkDigest
  congr 1
  rw [strBytes_append, strBytes_append, strBytes_append, strBytes_append,
    strBytes_append, strBytes_append, strBytes_append, strBytes_append]
  have hpipe : strBytes "|" = [0x7c] := by decide
  rw [hpipe]

theorem sha256Bytes_lt (m : List Nat) : ∀ b ∈ sha256Bytes m, b < 256 := by
  intro b hb
  unfold sha256Bytes at hb
  rw [List.mem_flatMap] at hb
  obtain ⟨x, -, hx⟩ := hb
  simp only [List.mem_cons, List.mem_singleton, List.not_mem_nil, or_false] at hx
  rcases hx with h | h | h | h <;> subst h <;> exact Nat.mod_lt _ (by norm_num)

theorem hexDigit_lowercase : ∀ n, n < 16 →
    ((hexDigit n).isDigit ∨ ('a' ≤ hexDigit n ∧ hexDigit n ≤ 'f')) := by decide

theorem sha256hex_chars (s : String) :
    ∀ c ∈ (sha256hex s).data, c.isDigit ∨ ('a' ≤ c ∧ c ≤ 'f') := by
  intro c hc
  unfold sha256hex hexOfBytes at hc
  rw [show (String.mk ((sha256Bytes (strBytes s)).flatMap
        (fun b => [hexDigit (b / 16), hexDigit (b % 16)]))).data
      = (sha256Bytes (strBytes s)).flatMap
        (fun b => [hexDigit (b / 16), hexDigit (b % 16)]) from rfl] at hc
  rw [List.mem_flatMap] at hc
  obtain ⟨b, hb, hcb⟩ := hc
  have hlt := sha256Bytes_lt (strBytes s) b hb
  simp only [List.mem_cons, List.mem_singleton, List.not_mem_nil, or_false] at hcb
  rcases hcb with h | h <;> subst h
  · exact hexDigit_lowercase _ (Nat.div_lt_of_lt_mul (by omega))
  · exact hexDigit_lowercase _ (Nat.mod_lt _ (by norm_num))

/-- C1: every ledger built by successful `Append` calls is prev-linked: the
record with id 1 carries the empty `prev_hash`, and every later record's
`prev_hash` is the `hash` of the record with the immediately preceding id. -/
theorem chain_soundness (inputs : List RecordInput) :
    ∀ r ∈ buildLedger inputs,
      (r.id = 1 → r.prevHash = "") ∧
      (1 < r.id → ∃ p ∈ buildLedger inputs, p.id + 1 = r.id ∧ r.prevHash = p.hash) := by
  intro r hr
  have h := buildLedger_chain inputs
  exact ⟨fun hid => chainFrom_first h r hr (by omega),
         fun hlt => chainFrom_link h r hr (by omega)⟩

/-- Two well-formed append inputs used to instantiate the theorems. -/
def demoInputs : List RecordInput :=
  [⟨1000, "code", "t", "p"⟩, ⟨1001, "config", "t", "q"⟩]

/-- Witness for C1: in the concrete two-record ledger, the second record is
prev-linked to a record with the preceding id. -/
theorem chain_soundness_witness :
    1 < ((buildLedger demoInputs).get ⟨1, by decide⟩).id ∧
    ∃ p ∈ buildLedger demoInputs,
      p.id + 1 = ((buildLedger demoInputs).get ⟨1, by decide⟩).id ∧
      ((buildLedger demoInputs).get ⟨1, by decide⟩).prevHash = p.hash :=
  ⟨by decide,
   (chain_soundness demoInputs ((buildLedger demoInputs).get ⟨1, by decide⟩)
     (List.get_mem _ _ _)).2 (by decide)⟩

/-- C2: every record sealed by a successful `Append` stores as `hash` the
SHA-256 digest, lowercase hex with no algorithm prefix, of the stored fields
`prev_hash`, decimal timestamp, kind, source and payload joined by the ASCII
pipe `0x7C` (spec §6.2); every character of the digest is a lowercase hex
digit, so the digest carries no `sha256:` prefix. -/
theorem append_hash_spec (l : List Record) (input : RecordInput)
    (p : List Record × Record) (h : Append l input = .ok p) :
    p.2.hash = specLinkDigest p.2.prevHash p.2.timestamp p.2.type p.2.source p.2.payload ∧
    ∀ c ∈ (p.2.hash).data, c.isDigit ∨ ('a' ≤ c ∧ c ≤ 'f') := by
  unfold Append at h
  by_cases h1 : goTrimSpace input.type = ""
  · rw [if_pos h1] at h; cases h
  · rw [if_neg h1] at h
    by_cases h2 : goTrimSpace input.payload = ""
    · rw [if_pos h2] at h; cases h
    · rw [if_neg h2] at h
      have hp := Except.ok.inj h
      subst hp
      constructor
      · exact computeHash_eq_spec _ _ _ _ _
      · unfold computeHash
        exact sha256hex_chars _

/-- The record `Append` seals on an empty store for the first demo input. -/
def demoRec1 : Record :=
  { id := nextId [], timestamp := 1000, type := "code", source := "t", payload := "p",
    hash := computeHash (lastHash []) 1000 "code" "t" "p", prevHash := lastHash [] }

/-- Witness for C2: evaluating `Append` on an empty store with the first demo
input yields a record whose hash is the spec digest of its fields. -/
theorem append_hash_spec_witness :
    demoRec1.hash = specLinkDigest demoRec1.prevHash demoRec1.timestamp
      demoRec1.type demoRec1.source demoRec1.payload :=
  (append_hash_spec [] ⟨1000, "code", "t", "p"⟩ ([demoRec1], demoRec1) rfl).1

/-! ## Chain verifier (`VerifyChain` in `ledger.go`) and claim C3 -/

/-- The verifier's walk (the row loop of `VerifyChain`): `prev` is the running
expected previous hash, `checked` the number of records verified so far. -/
def verifyAux (prev : String) (checked : Int) : List Record → VerifyResult
  | [] => { ok := true, failedId := 0, reason := "", checked := checked }
  | r :: rs =>
    if r.prevHash ≠ prev then
      { ok := false, failedId := r.id, reason := "prev_hash mismatch", checked := checked }
    else if r.hash ≠ computeHash prev r.timestamp r.type r.source r.payload then
      { ok := false, failedId := r.id, reason := "hash mismatch", checked := checked }
    else verifyAux r.hash (checked + 1) rs

/-- `VerifyChain` in `ledger.go`: walk all records in ascending id order,
starting from the empty expected hash. -/
def VerifyChain (l : List Record) : VerifyResult := verifyAux "" 0 l

/-- The expected previous hash before checking index `j` when the walk starts
from `prev`: `prev` at index 0, else the hash of the record at `j - 1`. -/
def expPrev (prev : String) (l : List Record) (j : Nat) : String :=
  if j = 0 then prev else lastHash (l.take j)

/-- Index `j` passes the verifier's two checks (vacuously true out of range). -/
def goodAtFrom (prev : String) (l : List Record) (j : Nat) : Bool :=
  match l.get? j with
  | none => true
  | some r =>
    (r.prevHash == expPrev prev l j) &&
    (r.hash == computeHash (expPrev prev l j) r.timestamp r.type r.source r.payload)

theorem lastHash_cons_of_ne_nil (r : Record) (t : List Record) (h : t ≠ []) :
    lastHash (r :: t) = lastHash t := by
  cases t with
  | nil => exact absurd rfl h
  | cons a as => rfl

theorem expPrev_cons (prev : String) (r : Record) (rs : List Record) (j : Nat)
    (hj : j < rs.length) : expPrev prev (r :: rs) (j + 1) = expPrev r.hash rs j := by
  cases j with
  | zero => rfl
  | succ k =>
    show lastHash ((r :: rs).take (k + 2)) = lastHash (rs.take (k + 1))
    rw [List.take_succ_cons]
    refine lastHash_cons_of_ne_nil r _ ?_
    cases rs with
    | nil => exact absurd hj (by simp)
    | cons b bs => simp

theorem goodAtFrom_cons (prev : String) (r : Record) (rs : List Record) (j : Nat) :
    goodAtFrom prev (r :: rs) (j + 1) = goodAtFrom r.hash rs j := by
  cases h : rs.get? j with
  | none =>
    unfold goodAtFrom
    rw [List.get?_cons_succ, h]
  | some a =>
    have hj : j < rs.length := by
      have := List.get?_eq_some.mp h
      exact this.1
    unfold goodAtFrom
    rw [List.get?_cons_succ, h, expPrev_cons prev r rs j hj]

theorem verifyAux_ok (l : List Record) : ∀ (prev : String) (c : Int),
    (∀ j, j < l.length → goodAtFrom prev l j = true) →
    verifyAux prev c l = { ok := true, failedId := 0, reason := "", checked := c + l.length } := by
  induction l with
  | nil => intro prev c _; simp [verifyAux]
  | cons r rs ih =>
    intro prev c h
    have h0 := h 0 (by simp)
    unfold goodAtFrom at h0
    rw [show (r :: rs).get? 0 = some r from rfl] at h0
    rw [show expPrev prev (r :: rs) 0 = prev from rfl] at h0
    rw [Bool.and_eq_true, beq_iff_eq, beq_iff_eq] at h0
    obtain ⟨h1, h2⟩ := h0
    unfold verifyAux
    rw [if_neg (not_not_intro h1), if_neg (not_not_intro h2)]
    rw [ih r.hash (c + 1) (fun j hj => by
      have := h (j + 1) (by simpa using Nat.succ_lt_succ hj)
      rwa [goodAtFrom_cons] at this)]
    congr 1
    simp only [List.length_cons]
    push_cast
    ring

theorem verifyAux_fail (l : List Record) : ∀ (prev : String) (c : Int) (j : Nat)
    (hj : j < l.length),
    (∀ i, i < j → goodAtFrom prev l i = true) →
    goodAtFrom prev l j = false →
    verifyAux prev c l =
      { ok := false, failedId := (l.get ⟨j, hj⟩).id,
        reason := if (l.get ⟨j, hj⟩).prevHash == expPrev prev l j
          then "hash mismatch" else "prev_hash mismatch",
        checked := c + j } := by
  induction l with
  | nil => intro prev c j hj; exact absurd hj (by simp)
  | cons r rs ih =>
    intro prev c j hj hgood hbad
    cases j with
    | zero =>
      have hget : (r :: rs).get ⟨0, hj⟩ = r := rfl
      have hexp : expPrev prev (r :: rs) 0 = prev := rfl
      unfold goodAtFrom at hbad
      rw [show (r :: rs).get? 0 = some r from rfl, hexp] at hbad
      by_cases hp : r.prevHash = prev
      · have hh : r.hash ≠ computeHash prev r.timestamp r.type r.source r.payload := by
          intro hcontra
          simp [hp, hcontra] at hbad
        unfold verifyAux
        rw [if_neg (not_not_intro hp), if_pos hh]
        simp [hget, hexp, hp]
      · unfold verifyAux
        rw [if_pos hp]
        simp [hget, hexp, hp]
    | succ k =>
      have hk : k < rs.length := by simpa using Nat.lt_of_succ_lt_succ hj
      have h0 := hgood 0 (Nat.succ_pos k)
      unfold goodAtFrom at h0
      rw [show (r :: rs).get? 0 = some r from rfl,
          show expPrev prev (r :: rs) 0 = prev from rfl,
          Bool.and_eq_true, beq_iff_eq, beq_iff_eq] at h0
      obtain ⟨h1, h2⟩ := h0
      unfold verifyAux
      rw [if_neg (not_not_intro h1), if_neg (not_not_intro h2)]
      rw [ih r.hash (c + 1) k hk
        (fun i hi => by
          have := hgood (i + 1) (Nat.succ_lt_succ hi)
          rwa [goodAtFrom_cons] at this)
        (by rw [← goodAtFrom_cons prev r rs k]; exact hbad)]
      have hexp := expPrev_cons prev r rs k hk
      have hget : (r :: rs).get ⟨k + 1, hj⟩ = rs.get ⟨k, hk⟩ := rfl
      rw [VerifyResult.mk.injEq]
      refine ⟨rfl, by rw [hget], by rw [hget, hexp], ?_⟩
      push_cast
      ring

/-- C3: the chain verifier walks records in ascending id order maintaining an
expected previous hash that starts empty (`expPrev`); it stops at the first
record failing a check (`goodAtFrom`), reporting that record's id with reason
`prev_hash mismatch` when its `prev_hash` differs from the expected value and
`hash mismatch` when its stored hash differs from the recomputed link hash,
and reports `ok = true` with `checked = N` when the walk over `N` records
completes. -/
theorem verify_chain_correct (l : List Record) :
    ((∀ j, j < l.length → goodAtFrom "" l j = true) →
      VerifyChain l = { ok := true, failedId := 0, reason := "", checked := (l.length : Int) }) ∧
    (∀ (j : Nat) (hj : j < l.length),
      (∀ i, i < j → goodAtFrom "" l i = true) →
      goodAtFrom "" l j = false →
      VerifyChain l =
        { ok := false, failedId := (l.get ⟨j, hj⟩).id,
          reason := if (l.get ⟨j, hj⟩).prevHash == expPrev "" l j
            then "hash mismatch" else "prev_hash mismatch",
          checked := (j : Int) }) := by
  constructor
  · intro hg
    have h := verifyAux_ok l "" 0 hg
    rw [zero_add] at h
    exact h
  · intro j hj hg hb
    have h := verifyAux_fail l "" 0 j hj hg hb
    rw [zero_add] at h
    exact h

/-- A one-record ledger whose record has a broken prev-link. -/
def demoBadLedger : List Record :=
  [{ id := 1, timestamp := 1000, type := "code", source := "t", payload := "p",
     hash := "deadbeef", prevHash := "x" }]

/-- Witness for C3: on the concrete bad ledger the verifier reports failure at
id 1 with reason `prev_hash mismatch` and zero records checked. -/
theorem verify_chain_witness :
    VerifyChain demoBadLedger =
      { ok := false, failedId := 1, reason := "prev_hash mismatch", checked := 0 } := by
  have h := (verify_chain_correct demoBadLedger).2 0 (by decide)
    (fun i hi => absurd hi (by omega)) (by decide)
  exact h.trans (by decide)

/-! ## Snapshot resolution (`internal/ledger/reconstruction.go`) and claim C4 -/

/-- `Snapshot` in `reconstruction.go`. -/
structure Snapshot where
  id : Int
  timestamp : Int
  Records : List Record
  CodeRecord : Option Record
  ConfigRecord : Option Record
  EnvironmentRecord : Option Record
  MutationRecords : List Record
deriving DecidableEq, Inhabited

/-- One iteration of `ResolveSnapshotAt`'s row loop: append the scanned row,
then keep the first row of each kind seen (the scan runs in descending id
order, so the first seen is the latest). -/
def resolveStep (s : Snapshot) (r : Record) : Snapshot :=
  let s1 := { s with Records := s.Records ++ [r] }
  if r.type = "code" then
    (if s1.CodeRecord.isNone then { s1 with CodeRecord := some r } else s1)
  else if r.type = "config" then
    (if s1.ConfigRecord.isNone then { s1 with ConfigRecord := some r } else s1)
  else if r.type = "environment" then
    (if s1.EnvironmentRecord.isNone then { s1 with EnvironmentRecord := some r } else s1)
  else if r.type = "mutation" then { s1 with MutationRecords := s1.MutationRecords ++ [r] }
  else s1

/-- The post-loop fixup in `ResolveSnapshotAt`: when no id was assigned and
rows were scanned, take the first scanned row's id. -/
def snapshotIdFix (s : Snapshot) : Snapshot :=
  if s.id = 0 then
    (match s.Records with
     | [] => s
     | r0 :: _ => { s with id := r0.id })
  else s

/-- `ResolveSnapshotAt` in `reconstruction.go`: the SQL query selects rows
with `ts <= ?` in descending id order; on an ascending-id table that scan is
the reverse of the filtered list. -/
def ResolveSnapshotAt (l : List Record) (ts : Int) : Snapshot :=
  snapshotIdFix (((l.filter (fun r => r.timestamp ≤ ts)).reverse).foldl resolveStep
    { id := 0, timestamp := ts, Records := [], CodeRecord := none,
      ConfigRecord := none, EnvironmentRecord := none, MutationRecords := [] })

/-- `Snapshot.ComputeHash` in `reconstruction.go`: SHA-256 of the stored
records' hashes joined with `"|"`, in the stored (scan) order. -/
def Snapshot.ComputeHash (s : Snapshot) : String :=
  sha256hex (String.intercalate "|" (s.Records.map Record.hash))

theorem resolveStep_Records (s : Snapshot) (r : Record) :
    (resolveStep s r).Records = s.Records ++ [r] := by
  simp only [resolveStep]
  split_ifs <;> rfl

theorem resolveFold_Records (scan : List Record) :
    ∀ (s : Snapshot), (scan.foldl resolveStep s).Records = s.Records ++ scan := by
  induction scan with
  | nil => intro s; simp
  | cons r rest ih =>
    intro s
    rw [List.foldl_cons, ih, resolveStep_Records]
    simp

theorem snapshotIdFix_Records (s : Snapshot) : (snapshotIdFix s).Records = s.Records := by
  unfold snapshotIdFix
  split
  · split <;> rfl
  · rfl

theorem ResolveSnapshotAt_Records (l : List Record) (ts : Int) :
    (ResolveSnapshotAt l ts).Records = (l.filter (fun r => r.timestamp ≤ ts)).reverse := by
  unfold ResolveSnapshotAt
  rw [snapshotIdFix_Records, resolveFold_Records]
  rfl

theorem chainFrom_pairwise {prev : String} {n : Int} {l : List Record}
    (h : chainFrom prev n l) : l.Pairwise (fun a b => a.id < b.id) := by
  induction l generalizing prev n with
  | nil => exact List.Pairwise.nil
  | cons r rs ih =>
    obtain ⟨hid, -, -, hrest⟩ := h
    refine List.Pairwise.cons ?_ (ih hrest)
    intro b hb
    have := chainFrom_id_lt hrest b hb
    omega

/-- C4 (amended): the snapshot hash at target time `T` is the SHA-256 digest
of the `hash` fields of all ledger records with timestamp at or before `T`
joined with `"|"`, taken in descending id order: the stored record list is
exactly the time-filtered ledger, sorted strictly descending by id. -/
theorem snapshot_hash_desc (inputs : List RecordInput) (T : Int) :
    ((ResolveSnapshotAt (buildLedger inputs) T).ComputeHash =
      sha256hex (String.intercalate "|"
        ((ResolveSnapshotAt (buildLedger inputs) T).Records.map Record.hash))) ∧
    List.Pairwise (fun a b => b.id < a.id)
      (ResolveSnapshotAt (buildLedger inputs) T).Records ∧
    (∀ r, r ∈ (ResolveSnapshotAt (buildLedger inputs) T).Records ↔
      r ∈ buildLedger inputs ∧ r.timestamp ≤ T) := by
  refine ⟨rfl, ?_, ?_⟩
  · rw [ResolveSnapshotAt_Records]
    rw [List.pairwise_reverse]
    exact List.Pairwise.filter _ (chainFrom_pairwise (buildLedger_chain inputs))
  · intro r
    rw [ResolveSnapshotAt_Records, List.mem_reverse, List.mem_filter]
    simp

set_option maxRecDepth 100000 in
/-- Counterexample to C4 as stated: on a concrete two-record ledger the
snapshot hash differs from the digest of the hashes joined in ascending id
order (the resolver scans in descending id order). -/
theorem snapshot_hash_asc_counterexample :
    (ResolveSnapshotAt (buildLedger demoInputs) 5000).ComputeHash ≠
      sha256hex (String.intercalate "|"
        (((buildLedger demoInputs).filter
          (fun r => r.timestamp ≤ (5000 : Int))).map Record.hash)) := by
  decide

/-! ## Typed payloads (`internal/collectors/collectors.go`) and claim C9 -/

/-- `CodePayload` in `collectors.go`. -/
structure CodePayload where
  repo : String
  commit : String
  artifacts : List String
  lockfiles : List String
deriving DecidableEq, Inhabited

/-- `ConfigPayload` in `collectors.go`. -/
structure ConfigPayload where
  source : String
  version : String
  hash : String
  snapshot : String
deriving DecidableEq, Inhabited

/-- `EnvironmentPayload` in `collectors.go`; Go's `TimeSource` field. -/
structure EnvironmentPayload where
  os : String
  kernel : String
  container : String
  runtime : String
  arch : String
  flags : List String
  timeSource : String
deriving DecidableEq, Inhabited

/-- `MutationPayload` in `collectors.go`. -/
structure MutationPayload where
  type : String
  ID : String
  source : String
  hash : String
  externalRef : String
deriving DecidableEq, Inhabited

/-- `ConfigPayload.Validate` in `collectors.go`: `none` models a nil error.
The Go code checks `Source`, `Hash` and `Snapshot` — not `Version`. -/
def ConfigPayload.Validate (p : ConfigPayload) : Option String :=
  if goTrimSpace p.source = "" then some "source is required"
  else if goTrimSpace p.hash = "" then some "hash is required"
  else if goTrimSpace p.snapshot = "" then some "snapshot is required"
  else none

/-- Counterexample to C9 as stated: a config payload whose `version` is blank
but whose source, hash and snapshot are non-blank passes validation, so a
blank `version` does not fail validation. -/
theorem config_validate_blank_version_passes :
    ConfigPayload.Validate ⟨"app.yaml", "", "abc123", "key: value"⟩ = none := by decide

/-- C9 (amended): config validation rejects blank `source`, `hash` and
`snapshot` with an error naming the unmet field, but never checks `version`:
the result is independent of the `version` field, so a config payload whose
only blank required field is `version` passes validation. -/
theorem config_validate_spec (p : ConfigPayload) :
    (ConfigPayload.Validate p = none ↔
      goTrimSpace p.source ≠ "" ∧ goTrimSpace p.hash ≠ "" ∧ goTrimSpace p.snapshot ≠ "") ∧
    (∀ v, ConfigPayload.Validate { p with version := v } = ConfigPayload.Validate p) := by
  constructor
  · unfold ConfigPayload.Validate
    split_ifs with h1 h2 h3 <;> simp_all
  · intro v
    rfl

/-! ## External references (`parseExternalRef` in `reconstructor.go`) -/

/-- Split a character list at its last `':'`, returning the parts before and
after it; `none` when no colon occurs. Models `strings.LastIndex(v, ":")`. -/
def lastSplit : List Char → Option (List Char × List Char)
  | [] => none
  | c :: cs =>
    match lastSplit cs with
    | some (ns, rest) => some (c :: ns, rest)
    | none => if c = ':' then some ([], cs) else none

/-- Character-level core of `parseExternalRef`: split at the last colon
(`strings.LastIndex`) and parse the remainder as a decimal 64-bit integer.
The namespace part is returned even when the integer parse fails. -/
def parseExternalRefCore (cs : List Char) : String × Int × Bool :=
  match cs with
  | [] => ("", 0, false)
  | c :: cs =>
    match lastSplit (c :: cs) with
    | some (ns, rest) =>
      match parseInt64 ⟨rest⟩ with
      | some n => (⟨ns⟩, n, true)
      | none => (⟨ns⟩, 0, false)
    | none =>
      match parseInt64 ⟨c :: cs⟩ with
      | some n => ("", n, true)
      | none => ("", 0, false)

/-- `parseExternalRef` in `reconstructor.go`: trim, then split and parse. -/
def parseExternalRef (value : String) : String × Int × Bool :=
  parseExternalRefCore (goTrimSpace value).data

example : parseExternalRef "kafka:42" = ("kafka", 42, true) := by decide
example : parseExternalRef "kafka:topic-a:7" = ("kafka:topic-a", 7, true) := by decide
example : parseExternalRef "42" = ("", 42, true) := by decide
example : parseExternalRef "svc:abc" = ("svc", 0, false) := by decide
example : parseExternalRef " 42 " = ("", 42, true) := by decide
example : parseExternalRef "" = ("", 0, false) := by decide

/-- `MutationRecord` in `reconstructor.go` (Go's `Type` field is `type`). -/
structure MutationRecord where
  LedgerID : Int
  Timestamp : Int
  type : String
  ID : String
  source : String
  hash : String
  ExternalRef : String
  Namespace : String
  Offset : Int
deriving DecidableEq, Inhabited

/-! ## Replay plan (`buildReplayPlan` in `reconstructor.go`) and claim C6 -/

/-- Bucket key used by `buildReplayPlan`: blank namespaces map to `"default"`. -/
def bucketKey (r : MutationRecord) : String :=
  if goTrimSpace r.Namespace = "" then "default" else r.Namespace

/-- First-appearance order of the bucket keys (the `order` slice in
`buildReplayPlan`). -/
def nsOrder (records : List MutationRecord) : List String :=
  records.foldl (fun acc r => if bucketKey r ∈ acc then acc else acc ++ [bucketKey r]) []

/-- `canOrderByOffset` in `reconstructor.go`. -/
def canOrderByOffset (records : List MutationRecord) : Bool :=
  !records.isEmpty &&
    records.all (fun r =>
      (goTrimSpace r.ExternalRef != "") && (parseExternalRef r.ExternalRef).2.2)

/-- Total `≤` corresponding to the strict offset-then-id less of the
`sort.Slice` call in `buildReplayPlan`. -/
def offLE (a b : MutationRecord) : Bool :=
  decide (a.Offset < b.Offset ∨ (a.Offset = b.Offset ∧ a.LedgerID ≤ b.LedgerID))

/-- Total `≤` corresponding to the strict timestamp-then-id less of the
`sort.Slice` call in `buildReplayPlan`. -/
def tsLE (a b : MutationRecord) : Bool :=
  decide (a.Timestamp < b.Timestamp ∨ (a.Timestamp = b.Timestamp ∧ a.LedgerID ≤ b.LedgerID))

/-- `NamespacePlan` in `reconstructor.go`. -/
structure NamespacePlan where
  Namespace : String
  Count : Nat
  Ordered : Bool
  Records : List MutationRecord
deriving DecidableEq, Inhabited

/-- `ReplayPlan` in `reconstructor.go`. -/
structure ReplayPlan where
  Namespaces : List NamespacePlan
  Total : Nat
deriving DecidableEq, Inhabited

/-- The bucket `buildReplayPlan` emits for namespace `ns`: the map slices are
appended in scan order, so the bucket is the filter of the source list; the
in-place `sort.Slice` is modelled as a merge sort by the same keys. -/
def mkBucket (records : List MutationRecord) (ns : String) : NamespacePlan :=
  let list := records.filter (fun r => bucketKey r == ns)
  let ordered := canOrderByOffset list
  { Namespace := ns, Count := list.length, Ordered := ordered,
    Records := if ordered then list.mergeSort offLE else list.mergeSort tsLE }

/-- `buildReplayPlan` in `reconstructor.go`: `nil` on an empty mutation list. -/
def buildReplayPlan (records : List MutationRecord) : Option ReplayPlan :=
  if records.isEmpty then none
  else some { Namespaces := (nsOrder records).map (mkBucket records), Total := records.length }

theorem mem_nsOrderAux (l : List MutationRecord) : ∀ (acc : List String) (x : String),
    (x ∈ l.foldl (fun acc r => if bucketKey r ∈ acc then acc else acc ++ [bucketKey r]) acc ↔
      x ∈ acc ∨ ∃ r ∈ l, bucketKey r = x) := by
  induction l with
  | nil => simp
  | cons r rest ih =>
    intro acc x
    rw [List.foldl_cons]
    by_cases h : bucketKey r ∈ acc
    · rw [if_pos h, ih]
      constructor
      · rintro (hx | ⟨r', hr', rfl⟩)
        · exact Or.inl hx
        · exact Or.inr ⟨r', List.mem_cons_of_mem _ hr', rfl⟩
      · rintro (hx | ⟨r', hr', rfl⟩)
        · exact Or.inl hx
        · rcases List.mem_cons.mp hr' with rfl | hr2
          · exact Or.inl h
          · exact Or.inr ⟨r', hr2, rfl⟩
    · rw [if_neg h, ih]
      constructor
      · rintro (hx | ⟨r', hr', rfl⟩)
        · rcases List.mem_append.mp hx with h1 | h2
          · exact Or.inl h1
          · rcases List.mem_singleton.mp h2 with rfl
            exact Or.inr ⟨r, List.mem_cons_self r rest, rfl⟩
        · exact Or.inr ⟨r', List.mem_cons_of_mem _ hr', rfl⟩
      · rintro (hx | ⟨r', hr', rfl⟩)
        · exact Or.inl (List.mem_append.mpr (Or.inl hx))
        · rcases List.mem_cons.mp hr' with rfl | hr2
          · exact Or.inl (List.mem_append.mpr (Or.inr (List.mem_singleton.mpr rfl)))
          · exact Or.inr ⟨r', hr2, rfl⟩

theorem mem_nsOrder (records : List MutationRecord) (x : String) :
    x ∈ nsOrder records ↔ ∃ r ∈ records, bucketKey r = x := by
  rw [nsOrder, mem_nsOrderAux]
  simp

theorem offLE_trans : ∀ (a b c : MutationRecord),
    offLE a b = true → offLE b c = true → offLE a c = true := by
  intro a b c h1 h2
  simp only [offLE, decide_eq_true_eq] at h1 h2 ⊢
  omega

theorem offLE_total : ∀ (a b : MutationRecord), (offLE a b || offLE b a) = true := by
  intro a b
  simp only [offLE, Bool.or_eq_true, decide_eq_true_eq]
  omega

theorem tsLE_trans : ∀ (a b c : MutationRecord),
    tsLE a b = true → tsLE b c = true → tsLE a c = true := by
  intro a b c h1 h2
  simp only [tsLE, decide_eq_true_eq] at h1 h2 ⊢
  omega

theorem tsLE_total : ∀ (a b : MutationRecord), (tsLE a b || tsLE b a) = true := by
  intro a b
  simp only [tsLE, Bool.or_eq_true, decide_eq_true_eq]
  omega

theorem parse_ok_trim_ne {v : String} (h : (parseExternalRef v).2.2 = true) :
    goTrimSpace v ≠ "" := by
  intro hc
  unfold parseExternalRef at h
  rw [hc] at h
  exact absurd h (by decide)

theorem mkBucket_spec (records : List MutationRecord) (ns : String)
    (hne : records.filter (fun r => bucketKey r == ns) ≠ []) :
    (mkBucket records ns).Records.Perm (records.filter (fun r => bucketKey r == ns)) ∧
    ((mkBucket records ns).Ordered = true ↔
      ∀ r ∈ (mkBucket records ns).Records, (parseExternalRef r.ExternalRef).2.2 = true) ∧
    ((mkBucket records ns).Ordered = true →
      (mkBucket records ns).Records.Pairwise (fun a b => offLE a b = true)) ∧
    ((mkBucket records ns).Ordered = false →
      (mkBucket records ns).Records.Pairwise (fun a b => tsLE a b = true)) := by
  simp only [mkBucket]
  set list := records.filter (fun r => bucketKey r == ns) with hlist
  refine ⟨?_, ?_, ?_, ?_⟩
  · split <;> exact List.mergeSort_perm _ _
  · constructor
    · intro hord r hr
      rw [if_pos hord] at hr
      have hrl : r ∈ list := (List.mergeSort_perm list offLE).mem_iff.mp hr
      unfold canOrderByOffset at hord
      rw [Bool.and_eq_true, List.all_eq_true] at hord
      have hr2 := hord.2 r hrl
      rw [Bool.and_eq_true] at hr2
      exact hr2.2
    · intro hall
      unfold canOrderByOffset
      rw [Bool.and_eq_true, List.all_eq_true]
      constructor
      · cases hl : list with
        | nil => exact absurd hl hne
        | cons a as => rfl
      · intro r hr
        have hrs : r ∈ (if canOrderByOffset list then list.mergeSort offLE
            else list.mergeSort tsLE) := by
          split <;> exact ((List.mergeSort_perm list _).mem_iff).mpr hr
        have hok := hall r hrs
        rw [Bool.and_eq_true]
        refine ⟨?_, hok⟩
        rw [bne_iff_ne]
        exact parse_ok_trim_ne hok
  · intro hord
    rw [if_pos hord]
    exact List.sorted_mergeSort offLE_trans offLE_total list
  · intro hord
    rw [if_neg (by simp [hord])]
    exact List.sorted_mergeSort tsLE_trans tsLE_total list

/-- C6: `buildReplayPlan` groups mutations into buckets keyed by namespace
(the prefix of `external_ref` before the last colon, blank mapped to
`"default"`), the buckets appearing in first-appearance order of the source
list; a bucket is `ordered` exactly when every member's `external_ref` parses
as namespace plus decimal integer, in which case its records are sorted
ascending by that integer with ties by ascending id, and otherwise sorted
ascending by timestamp with ties by ascending id; the plan's `total` is the
mutation count, and an empty mutation list yields a null plan. -/
theorem replay_plan_spec (records : List MutationRecord)
    (hwf : ∀ r ∈ records, r.Namespace = (parseExternalRef r.ExternalRef).1 ∧
      r.Offset = (parseExternalRef r.ExternalRef).2.1) :
    (buildReplayPlan records = none ↔ records = []) ∧
    (∀ plan, buildReplayPlan records = some plan →
      plan.Total = records.length ∧
      plan.Namespaces.map NamespacePlan.Namespace = nsOrder records ∧
      (∀ np ∈ plan.Namespaces,
        np.Records.Perm (records.filter (fun r => bucketKey r == np.Namespace)) ∧
        np.Count = (records.filter (fun r => bucketKey r == np.Namespace)).length ∧
        (np.Ordered = true ↔
          ∀ r ∈ np.Records, (parseExternalRef r.ExternalRef).2.2 = true) ∧
        (np.Ordered = true → np.Records.Pairwise (fun a b =>
          (parseExternalRef a.ExternalRef).2.1 < (parseExternalRef b.ExternalRef).2.1 ∨
          ((parseExternalRef a.ExternalRef).2.1 = (parseExternalRef b.ExternalRef).2.1 ∧
            a.LedgerID ≤ b.LedgerID))) ∧
        (np.Ordered = false → np.Records.Pairwise (fun a b =>
          a.Timestamp < b.Timestamp ∨
          (a.Timestamp = b.Timestamp ∧ a.LedgerID ≤ b.LedgerID))))) := by
  constructor
  · unfold buildReplayPlan
    by_cases h : records.isEmpty
    · rw [if_pos h]
      simp [List.isEmpty_iff.mp h]
    · rw [if_neg h]
      simp only [reduceCtorEq, false_iff]
      intro hc
      exact h (by rw [hc]; rfl)
  · intro plan hplan
    unfold buildReplayPlan at hplan
    by_cases h : records.isEmpty
    · rw [if_pos h] at hplan
      exact absurd hplan (by simp)
    · rw [if_neg h] at hplan
      have hp := (Option.some.inj hplan).symm
      subst hp
      refine ⟨rfl, ?_, ?_⟩
      · rw [List.map_map]
        have hf : (NamespacePlan.Namespace ∘ mkBucket records) = id := funext fun ns => rfl
        rw [hf, List.map_id]
      · intro np hnp
        rw [List.mem_map] at hnp
        obtain ⟨ns, hns, rfl⟩ := hnp
        have hne : records.filter (fun r => bucketKey r == ns) ≠ [] := by
          rw [mem_nsOrder] at hns
          obtain ⟨r, hr, hkey⟩ := hns
          intro hempty
          have hmem : r ∈ records.filter (fun r => bucketKey r == ns) :=
            List.mem_filter.mpr ⟨hr, by simp [hkey]⟩
          rw [hempty] at hmem
          exact List.not_mem_nil r hmem
        obtain ⟨hperm, hiff, hordPW, hunordPW⟩ := mkBucket_spec records ns hne
        refine ⟨hperm, rfl, hiff, ?_, ?_⟩
        · intro hord
          refine (hordPW hord).imp_of_mem ?_
          intro a b ha hb hR
          have ha' : a ∈ records := (List.mem_filter.mp ((hperm.mem_iff).mp ha)).1
          have hb' : b ∈ records := (List.mem_filter.mp ((hperm.mem_iff).mp hb)).1
          obtain ⟨-, haoff⟩ := hwf a ha'
          obtain ⟨-, hboff⟩ := hwf b hb'
          simp only [offLE, decide_eq_true_eq] at hR
          rw [haoff, hboff] at hR
          exact hR
        · intro hord
          refine (hunordPW hord).imp ?_
          intro a b hR
          simpa [tsLE, decide_eq_true_eq] using hR

/-- Two mutation records in one namespace, as the ingest path builds them. -/
def demoMuts : List MutationRecord :=
  [{ LedgerID := 1, Timestamp := 1000, type := "t", ID := "a", source := "s", hash := "",
     ExternalRef := "kafka:2", Namespace := "kafka", Offset := 2 },
   { LedgerID := 2, Timestamp := 1000, type := "t", ID := "b", source := "s", hash := "",
     ExternalRef := "kafka:1", Namespace := "kafka", Offset := 1 }]

/-- Witness for C6: on the concrete two-mutation list the plan's total is the
mutation count and the buckets appear in first-appearance order. -/
theorem replay_plan_witness :
    ((buildReplayPlan demoMuts).getD default).Total = demoMuts.length ∧
    ((buildReplayPlan demoMuts).getD default).Namespaces.map NamespacePlan.Namespace =
      nsOrder demoMuts := by
  cases hplan : buildReplayPlan demoMuts with
  | none =>
    have hempty := (replay_plan_spec demoMuts (by decide)).1.mp hplan
    exact absurd hempty (by decide)
  | some plan =>
    have h := (replay_plan_spec demoMuts (by decide)).2 plan hplan
    exact ⟨h.1, h.2.1⟩

/-! ## Claim C10: bare decimal external refs -/

theorem lastSplit_eq_none {cs : List Char} (h : ∀ c ∈ cs, c ≠ ':') :
    lastSplit cs = none := by
  induction cs with
  | nil => rfl
  | cons c rest ih =>
    unfold lastSplit
    rw [ih (fun x hx => h x (List.mem_cons_of_mem c hx))]
    rw [if_neg (h c (List.mem_cons_self c rest))]

theorem parseInt64Core_digits {cs : List Char} (h1 : cs ≠ [])
    (h2 : ∀ c ∈ cs, c.isDigit) (h3 : decDigits cs < 2 ^ 63) :
    parseInt64Core cs = some ((decDigits cs : Nat) : Int) := by
  cases cs with
  | nil => exact absurd rfl h1
  | cons c rest =>
    have hc : c.isDigit := h2 c (List.mem_cons_self c rest)
    have hneg : ¬(c = '-' ∨ c = '+') := by
      rintro (rfl | rfl) <;> exact absurd hc (by decide)
    simp only [parseInt64Core]
    rw [if_neg hneg]
    rw [if_neg (by simp : ¬(c :: rest).isEmpty = true)]
    rw [if_pos (List.all_eq_true.mpr (fun x hx => h2 x hx))]
    have hcm : ¬(c = '-') := fun hcon => hneg (Or.inl hcon)
    rw [if_neg hcm]
    rw [if_pos h3]

theorem parseInt64_digits {s : String} (h1 : s.data ≠ [])
    (h2 : ∀ c ∈ s.data, c.isDigit) (h3 : decDigits s.data < 2 ^ 63) :
    parseInt64 s = some ((decDigits s.data : Nat) : Int) :=
  parseInt64Core_digits h1 h2 h3

theorem parseExternalRef_digits {v : String}
    (h1 : (goTrimSpace v).data ≠ [])
    (h2 : ∀ c ∈ (goTrimSpace v).data, c.isDigit)
    (h3 : decDigits (goTrimSpace v).data < 2 ^ 63) :
    parseExternalRef v = ("", ((decDigits (goTrimSpace v).data : Nat) : Int), true) := by
  unfold parseExternalRef
  cases hd : (goTrimSpace v).data with
  | nil => exact absurd hd h1
  | cons c cs =>
    rw [hd] at h2 h3
    have hnc : ∀ x ∈ c :: cs, x ≠ ':' := by
      intro x hx hcon
      have hdx := h2 x hx
      rw [hcon] at hdx
      exact absurd hdx (by decide)
    have hint : parseInt64 ⟨c :: cs⟩ = some ((decDigits (c :: cs) : Nat) : Int) :=
      parseInt64Core_digits (by simp) (fun x hx => h2 x hx) h3
    simp only [parseExternalRefCore]
    rw [lastSplit_eq_none hnc, hint]

theorem nsOrderAux_const (l : List MutationRecord) : ∀ (acc : List String),
    (∀ r ∈ l, bucketKey r ∈ acc) →
    l.foldl (fun acc r => if bucketKey r ∈ acc then acc else acc ++ [bucketKey r]) acc = acc := by
  induction l with
  | nil => intro acc _; rfl
  | cons r rest ih =>
    intro acc h
    rw [List.foldl_cons, if_pos (h r (List.mem_cons_self r rest))]
    exact ih acc (fun x hx => h x (List.mem_cons_of_mem r hx))

/-- C10: a mutation whose `external_ref` is a bare decimal integer with no
colon is assigned the empty namespace and offset equal to that integer, so it
lands in the `"default"` bucket of the replay plan; a mutation list made only
of such records yields exactly the `"default"` bucket, marked `ordered`. -/
theorem bare_ref_default_bucket (records : List MutationRecord)
    (hne : records ≠ [])
    (hwf : ∀ r ∈ records, r.Namespace = (parseExternalRef r.ExternalRef).1 ∧
      r.Offset = (parseExternalRef r.ExternalRef).2.1)
    (hdig : ∀ r ∈ records, (goTrimSpace r.ExternalRef).data ≠ [] ∧
      (∀ c ∈ (goTrimSpace r.ExternalRef).data, c.isDigit) ∧
      decDigits (goTrimSpace r.ExternalRef).data < 2 ^ 63) :
    (∀ r ∈ records, r.Namespace = "" ∧
      r.Offset = ((decDigits (goTrimSpace r.ExternalRef).data : Nat) : Int)) ∧
    nsOrder records = ["default"] ∧
    (∃ plan, buildReplayPlan records = some plan ∧
      ∀ np ∈ plan.Namespaces, np.Namespace = "default" ∧ np.Ordered = true) := by
  have hparse : ∀ r ∈ records, parseExternalRef r.ExternalRef =
      ("", ((decDigits (goTrimSpace r.ExternalRef).data : Nat) : Int), true) := by
    intro r hr
    obtain ⟨d1, d2, d3⟩ := hdig r hr
    exact parseExternalRef_digits d1 d2 d3
  have hfields : ∀ r ∈ records, r.Namespace = "" ∧
      r.Offset = ((decDigits (goTrimSpace r.ExternalRef).data : Nat) : Int) := by
    intro r hr
    obtain ⟨hns, hoff⟩ := hwf r hr
    rw [hns, hoff, hparse r hr]
    exact ⟨rfl, rfl⟩
  have hk : ∀ r ∈ records, bucketKey r = "default" := by
    intro r hr
    have h0 := (hfields r hr).1
    simp [bucketKey, h0, show goTrimSpace "" = "" from by decide]
  have hns : nsOrder records = ["default"] := by
    cases records with
    | nil => exact absurd rfl hne
    | cons r rest =>
      unfold nsOrder
      rw [List.foldl_cons, if_neg (List.not_mem_nil _), List.nil_append]
      rw [nsOrderAux_const rest [bucketKey r] (fun x hx => by
        rw [hk x (List.mem_cons_of_mem r hx), ← hk r (List.mem_cons_self r rest)]
        exact List.mem_singleton.mpr rfl)]
      rw [hk r (List.mem_cons_self r rest)]
  refine ⟨hfields, hns, ?_⟩
  have hfilter : records.filter (fun r => bucketKey r == "default") = records :=
    List.filter_eq_self.mpr (fun a ha => by simp [hk a ha])
  have hie : records.isEmpty = false := by
    cases records with
    | nil => exact absurd rfl hne
    | cons a as => rfl
  refine ⟨{ Namespaces := (nsOrder records).map (mkBucket records),
            Total := records.length }, ?_, ?_⟩
  · unfold buildReplayPlan
    rw [hie]
    rfl
  · intro np hnp
    rw [hns] at hnp
    rcases List.mem_singleton.mp (by simpa using hnp) with rfl
    refine ⟨rfl, ?_⟩
    show canOrderByOffset (records.filter (fun r => bucketKey r == "default")) = true
    rw [hfilter]
    unfold canOrderByOffset
    rw [Bool.and_eq_true]
    constructor
    · rw [hie]
      rfl
    · rw [List.all_eq_true]
      intro r hr
      rw [Bool.and_eq_true]
      constructor
      · rw [bne_iff_ne]
        intro hcon
        exact (hdig r hr).1 (by rw [hcon])
      · rw [hparse r hr]

/-- Two mutation records whose refs are bare decimal integers. -/
def demoBareMuts : List MutationRecord :=
  [{ LedgerID := 1, Timestamp := 1000, type := "t", ID := "a", source := "s", hash := "",
     ExternalRef := "42", Namespace := "", Offset := 42 },
   { LedgerID := 2, Timestamp := 1000, type := "t", ID := "b", source := "s", hash := "",
     ExternalRef := "7", Namespace := "", Offset := 7 }]

/-- Witness for C10: the concrete bare-integer mutations land in a single
`"default"` bucket marked `ordered`. -/
theorem bare_ref_witness :
    nsOrder demoBareMuts = ["default"] ∧
    (∃ plan, buildReplayPlan demoBareMuts = some plan ∧
      ∀ np ∈ plan.Namespaces, np.Namespace = "default" ∧ np.Ordered = true) := by
  have h := bare_ref_default_bucket demoBareMuts (by decide) (by decide) (by decide)
  exact ⟨h.2.1, h.2.2⟩

/-! ## Determinism score (`calculateDeterminismScore` in `reconstructor.go`)
and claim C7 -/

/-- `SnapshotState` in `reconstructor.go`. -/
structure SnapshotState where
  timestamp : Int
  code : Option CodePayload
  config : Option ConfigPayload
  environment : Option EnvironmentPayload
  mutations : List MutationPayload
  mutationRecords : List MutationRecord
deriving DecidableEq, Inhabited

/-- `CoverageReport` in `reconstructor.go`. -/
structure CoverageReport where
  hasCode : Bool
  hasConfig : Bool
  hasEnvironment : Bool
  hasMutations : Bool
  complete : Bool
deriving DecidableEq, Inhabited

/-- The time-source deduction condition of `calculateDeterminismScore`: an
environment snapshot is present and its `time_source` differs from
`"system"`. -/
def timePenalty (state : SnapshotState) : Bool :=
  match state.environment with
  | some env => env.timeSource != "system"
  | none => false

/-- The blank-external-ref deduction: Go guards with a non-empty mutation
list, scans for a blank trimmed `external_ref` and breaks at the first hit,
deducting once. -/
def blankRefPenalty (state : SnapshotState) : Bool :=
  decide (0 < state.mutations.length) &&
    state.mutations.any (fun m => goTrimSpace m.externalRef == "")

/-- `calculateDeterminismScore` in `reconstructor.go`. The Go `float64` score
only ever holds integer values (adds of 25, deductions of 5 and 2), so it is
embedded as `Int`. -/
def calculateDeterminismScore (state : SnapshotState) (coverage : CoverageReport) : Int :=
  let s1 : Int := 0 + (if coverage.hasCode then 25 else 0)
  let s2 := s1 + (if coverage.hasConfig then 25 else 0)
  let s3 := s2 + (if coverage.hasEnvironment then 25 else 0)
  let s4 := s3 + (if coverage.hasMutations then 25 else 0)
  let s5 := s4 - (if timePenalty state then 5 else 0)
  let s6 := s5 - (if blankRefPenalty state then 2 else 0)
  if s6 < 0 then 0 else s6

/-- Determinism score as §4.5.4 words it: start at 0, add 25 for each
captured dimension, deduct 5 for a present non-`"system"` time source,
deduct 2 once when any mutation has a blank `external_ref`, floor at 0, cap
at 100. Written from the spec, to be compared with the source. -/
def specDeterminismScore (state : SnapshotState) (coverage : CoverageReport) : Int :=
  min 100 (max 0
    ((if coverage.hasCode then 25 else 0) + (if coverage.hasConfig then 25 else 0) +
     (if coverage.hasEnvironment then 25 else 0) + (if coverage.hasMutations then 25 else 0) -
     (if timePenalty state then 5 else 0) - (if blankRefPenalty state then 2 else 0)))

/-- C7: the determinism score equals the spec's add-25/deduct-5/deduct-2
formula with floor 0 and cap 100, and in particular always lies in
`[0, 100]`. -/
theorem determinism_score_spec (state : SnapshotState) (coverage : CoverageReport) :
    calculateDeterminismScore state coverage = specDeterminismScore state coverage ∧
    0 ≤ calculateDeterminismScore state coverage ∧
    calculateDeterminismScore state coverage ≤ 100 := by
  unfold calculateDeterminismScore specDeterminismScore
  rcases coverage with ⟨b1, b2, b3, b4, b5⟩
  cases b1 <;> cases b2 <;> cases b3 <;> cases b4 <;> cases b5 <;>
    cases htp : timePenalty state <;> cases hbp : blankRefPenalty state <;> decide

/-! ## Provenance checks (`applyProvenanceChecks` in `reconstructor.go`)
and claim C8 -/

/-- `computeConfigHash` in `reconstructor.go`. -/
def computeConfigHash (snapshot : String) : String := "sha256:" ++ sha256hex snapshot

/-- The mutation pass of `applyProvenanceChecks`: one walk over the records
with the `seen` id set, `seenExt` ref set and collected namespace set `nss`;
returns the issue that stopped the walk (if any) and the namespaces
collected up to that point. -/
def provLoop (seen seenExt nss : List String) :
    List MutationRecord → Option String × List String
  | [] => (none, nss)
  | m :: rest =>
    if goTrimSpace m.ID ≠ "" ∧ m.ID ∈ seen then
      (some ("provenance: duplicate mutation id " ++ m.ID), nss)
    else if goTrimSpace m.ExternalRef = "" then
      (some "provenance: mutation missing external_ref", nss)
    else if m.ExternalRef ∈ seenExt then
      (some ("provenance: duplicate external_ref " ++ m.ExternalRef), nss)
    else
      provLoop (if goTrimSpace m.ID ≠ "" then m.ID :: seen else seen)
        (m.ExternalRef :: seenExt)
        (if goTrimSpace m.Namespace ≠ "" ∧ m.Namespace ∉ nss then m.Namespace :: nss else nss)
        rest

/-- The mutation section of `applyProvenanceChecks`: the stopping issue (if
any) followed by the mixed-namespaces issue when more than one namespace was
observed; Go guards the whole section with a non-empty record list. -/
def mutationIssues (recs : List MutationRecord) : List String :=
  if recs.isEmpty then []
  else
    (provLoop [] [] [] recs).1.toList ++
      (if 1 < (provLoop [] [] [] recs).2.length
        then ["provenance: mixed external_ref namespaces detected"] else [])

/-- `applyProvenanceChecks` in `reconstructor.go`, as the list of issues it
appends to the report. -/
def applyProvenanceChecks (state : SnapshotState) : List String :=
  (match state.code with
   | some c => if (strBytes (goTrimSpace c.commit)).length < 7
       then ["provenance: code commit hash too short"] else []
   | none => []) ++
  (match state.config with
   | some c =>
     if goTrimSpace c.snapshot = "" then ["provenance: config snapshot empty"]
     else if goTrimSpace c.hash ≠ "" ∧ c.hash ≠ computeConfigHash (goTrimSpace c.snapshot)
       then ["provenance: config hash mismatch"] else []
   | none => []) ++
  (match state.environment with
   | some e => if goTrimSpace e.os = "" ∨ goTrimSpace e.runtime = ""
       then ["provenance: environment fields missing"] else []
   | none => []) ++
  mutationIssues state.mutationRecords

/-- A snapshot state with a duplicate mutation id at position 2 and a missing
external_ref at position 3. -/
def demoProvState : SnapshotState :=
  { timestamp := 0, code := none, config := none, environment := none,
    mutations := [],
    mutationRecords :=
      [{ LedgerID := 1, Timestamp := 0, type := "t", ID := "a", source := "s", hash := "",
         ExternalRef := "k:1", Namespace := "k", Offset := 1 },
       { LedgerID := 2, Timestamp := 0, type := "t", ID := "a", source := "s", hash := "",
         ExternalRef := "k:2", Namespace := "k", Offset := 2 },
       { LedgerID := 3, Timestamp := 0, type := "t", ID := "b", source := "s", hash := "",
         ExternalRef := "", Namespace := "", Offset := 0 }] }

/-- Counterexample to C8 as stated: the pass breaks entirely at the first
issue of any kind, so although the third record is missing its external_ref,
only the duplicate-id issue is emitted: the three kinds are not detected
independently. -/
theorem provenance_counterexample :
    applyProvenanceChecks demoProvState = ["provenance: duplicate mutation id a"] ∧
    "provenance: mutation missing external_ref" ∉ applyProvenanceChecks demoProvState :=
  ⟨by decide, by decide⟩

/-- The non-blank mutation ids, in scan order (ids the pass adds to `seen`). -/
def nbIds (recs : List MutationRecord) : List String :=
  recs.filterMap (fun m => if goTrimSpace m.ID ≠ "" then some m.ID else none)

theorem provLoop_none_iff (recs : List MutationRecord) : ∀ (seen seenExt nss : List String),
    ((provLoop seen seenExt nss recs).1 = none ↔
      ((nbIds recs).Nodup ∧ (∀ i ∈ nbIds recs, i ∉ seen) ∧
       (∀ m ∈ recs, goTrimSpace m.ExternalRef ≠ "") ∧
       (recs.map MutationRecord.ExternalRef).Nodup ∧
       (∀ x ∈ recs.map MutationRecord.ExternalRef, x ∉ seenExt))) := by
  induction recs with
  | nil =>
    intro seen seenExt nss
    simp [provLoop, nbIds]
  | cons m rest ih =>
    intro seen seenExt nss
    unfold provLoop
    by_cases hdup : goTrimSpace m.ID ≠ "" ∧ m.ID ∈ seen
    · rw [if_pos hdup]
      refine iff_of_false (by simp) ?_
      rintro ⟨-, hfresh, -⟩
      have hmm : m.ID ∈ nbIds (m :: rest) := by
        unfold nbIds
        rw [List.filterMap_cons, if_pos hdup.1]
        exact List.mem_cons_self _ _
      exact hfresh m.ID hmm hdup.2
    · rw [if_neg hdup]
      by_cases hblank : goTrimSpace m.ExternalRef = ""
      · rw [if_pos hblank]
        refine iff_of_false (by simp) ?_
        rintro ⟨-, -, hrefs, -⟩
        exact hrefs m (List.mem_cons_self m rest) hblank
      · rw [if_neg hblank]
        by_cases hext : m.ExternalRef ∈ seenExt
        · rw [if_pos hext]
          refine iff_of_false (by simp) ?_
          rintro ⟨-, -, -, -, hfresh⟩
          exact hfresh m.ExternalRef (by simp) hext
        · rw [if_neg hext]
          rw [ih]
          by_cases hid : goTrimSpace m.ID ≠ ""
          · rw [if_pos hid]
            have hnb : nbIds (m :: rest) = m.ID :: nbIds rest := by
              unfold nbIds
              rw [List.filterMap_cons, if_pos hid]
            rw [hnb, List.map_cons]
            constructor
            · rintro ⟨hnd, hfresh, hrefs, hrnd, hrfresh⟩
              refine ⟨?_, ?_, ?_, ?_, ?_⟩
              · rw [List.nodup_cons]
                exact ⟨fun hmem => (hfresh m.ID hmem) (List.mem_cons_self _ _), hnd⟩
              · intro i hi
                rcases List.mem_cons.mp hi with rfl | hi2
                · exact fun hcon => hdup ⟨hid, hcon⟩
                · exact fun hcon => (hfresh i hi2) (List.mem_cons_of_mem _ hcon)
              · intro m2 hm2
                rcases List.mem_cons.mp hm2 with rfl | hm3
                · exact hblank
                · exact hrefs m2 hm3
              · rw [List.nodup_cons]
                exact ⟨fun hmem => (hrfresh m.ExternalRef hmem) (List.mem_cons_self _ _), hrnd⟩
              · intro x hx
                rcases List.mem_cons.mp hx with rfl | hx2
                · exact hext
                · exact fun hcon => (hrfresh x hx2) (List.mem_cons_of_mem _ hcon)
            · rintro ⟨hnd, hfresh, hrefs, hrnd, hrfresh⟩
              rw [List.nodup_cons] at hnd
              rw [List.nodup_cons] at hrnd
              refine ⟨hnd.2, ?_, ?_, hrnd.2, ?_⟩
              · intro i hi hcon
                rcases List.mem_cons.mp hcon with rfl | hc2
                · exact hnd.1 hi
                · exact hfresh i (List.mem_cons_of_mem _ hi) hc2
              · intro m2 hm2
                exact hrefs m2 (List.mem_cons_of_mem _ hm2)
              · intro x hx hcon
                rcases List.mem_cons.mp hcon with rfl | hc2
                · exact hrnd.1 hx
                · exact hrfresh x (List.mem_cons_of_mem _ hx) hc2
          · rw [if_neg hid]
            have hnb : nbIds (m :: rest) = nbIds rest := by
              unfold nbIds
              rw [List.filterMap_cons, if_neg hid]
            rw [hnb, List.map_cons]
            constructor
            · rintro ⟨hnd, hfresh, hrefs, hrnd, hrfresh⟩
              refine ⟨hnd, hfresh, ?_, ?_, ?_⟩
              · intro m2 hm2
                rcases List.mem_cons.mp hm2 with rfl | hm3
                · exact hblank
                · exact hrefs m2 hm3
              · rw [List.nodup_cons]
                exact ⟨fun hmem => (hrfresh m.ExternalRef hmem) (List.mem_cons_self _ _), hrnd⟩
              · intro x hx
                rcases List.mem_cons.mp hx with rfl | hx2
                · exact hext
                · exact fun hcon => (hrfresh x hx2) (List.mem_cons_of_mem _ hcon)
            · rintro ⟨hnd, hfresh, hrefs, hrnd, hrfresh⟩
              rw [List.nodup_cons] at hrnd
              refine ⟨hnd, hfresh, ?_, hrnd.2, ?_⟩
              · intro m2 hm2
                exact hrefs m2 (List.mem_cons_of_mem _ hm2)
              · intro x hx hcon
                rcases List.mem_cons.mp hcon with rfl | hc2
                · exact hrnd.1 hx
                · exact hrfresh x (List.mem_cons_of_mem _ hx) hc2

theorem provLoop_nss_none (recs : List MutationRecord) : ∀ (seen seenExt nss : List String),
    (provLoop seen seenExt nss recs).1 = none →
    ((∀ x, x ∈ (provLoop seen seenExt nss recs).2 ↔
       (x ∈ nss ∨ ∃ m ∈ recs, goTrimSpace m.Namespace ≠ "" ∧ m.Namespace = x)) ∧
     (nss.Nodup → (provLoop seen seenExt nss recs).2.Nodup)) := by
  induction recs with
  | nil =>
    intro seen seenExt nss h
    constructor
    · intro x
      simp [provLoop]
    · intro hn
      simpa [provLoop] using hn
  | cons m rest ih =>
    intro seen seenExt nss h
    unfold provLoop at h ⊢
    by_cases hdup : goTrimSpace m.ID ≠ "" ∧ m.ID ∈ seen
    · rw [if_pos hdup] at h
      exact absurd h (by simp)
    · rw [if_neg hdup] at h ⊢
      by_cases hblank : goTrimSpace m.ExternalRef = ""
      · rw [if_pos hblank] at h
        exact absurd h (by simp)
      · rw [if_neg hblank] at h ⊢
        by_cases hext : m.ExternalRef ∈ seenExt
        · rw [if_pos hext] at h
          exact absurd h (by simp)
        · rw [if_neg hext] at h ⊢
          obtain ⟨hmem, hnd⟩ := ih _ _ _ h
          constructor
          · intro x
            rw [hmem x]
            by_cases hns : goTrimSpace m.Namespace ≠ "" ∧ m.Namespace ∉ nss
            · rw [if_pos hns]
              constructor
              · rintro (hx | ⟨m2, hm2, hne, rfl⟩)
                · rcases List.mem_cons.mp hx with rfl | h2
                  · exact Or.inr ⟨m, List.mem_cons_self m rest, hns.1, rfl⟩
                  · exact Or.inl h2
                · exact Or.inr ⟨m2, List.mem_cons_of_mem _ hm2, hne, rfl⟩
              · rintro (hx | ⟨m2, hm2, hne, rfl⟩)
                · exact Or.inl (List.mem_cons_of_mem _ hx)
                · rcases List.mem_cons.mp hm2 with rfl | h2
                  · exact Or.inl (List.mem_cons_self _ _)
                  · exact Or.inr ⟨m2, h2, hne, rfl⟩
            · rw [if_neg hns]
              constructor
              · rintro (hx | ⟨m2, hm2, hne, rfl⟩)
                · exact Or.inl hx
                · exact Or.inr ⟨m2, List.mem_cons_of_mem _ hm2, hne, rfl⟩
              · rintro (hx | ⟨m2, hm2, hne, rfl⟩)
                · exact Or.inl hx
                · rcases List.mem_cons.mp hm2 with rfl | h2
                  · rcases not_and_or.mp hns with h0 | h0
                    · exact absurd hne h0
                    · exact Or.inl (not_not.mp h0)
                  · exact Or.inr ⟨m2, h2, hne, rfl⟩
          · intro hn
            apply hnd
            by_cases hns : goTrimSpace m.Namespace ≠ "" ∧ m.Namespace ∉ nss
            · rw [if_pos hns]
              exact List.nodup_cons.mpr ⟨hns.2, hn⟩
            · rw [if_neg hns]
              exact hn

/-- Character-level prefix test (Go `strings.HasPrefix`). -/
def strStarts (p s : String) : Bool := p.data.isPrefixOf s.data

/-- Recognizer for the three per-record provenance issues of the mutation
pass. -/
def perRec (s : String) : Bool :=
  strStarts "provenance: duplicate mutation id " s ||
  (s == "provenance: mutation missing external_ref") ||
  strStarts "provenance: duplicate external_ref " s

/-- C8 (amended): the mutation provenance pass stops at the first violation
of any kind, so it emits at most one of the three per-record issues rather
than one per kind; it emits none exactly when there is no duplicate
non-blank id, no blank `external_ref` and no duplicate `external_ref`; and
when no violation stops the pass, the mixed-namespaces issue is emitted
exactly when more than one distinct non-blank namespace occurs. -/
theorem provenance_pass_spec (recs : List MutationRecord) :
    ((mutationIssues recs).countP perRec ≤ 1) ∧
    ((provLoop [] [] [] recs).1 = none ↔
      ((nbIds recs).Nodup ∧ (∀ m ∈ recs, goTrimSpace m.ExternalRef ≠ "") ∧
       (recs.map MutationRecord.ExternalRef).Nodup)) ∧
    ((provLoop [] [] [] recs).1 = none →
      ("provenance: mixed external_ref namespaces detected" ∈ mutationIssues recs ↔
        1 < ((recs.map MutationRecord.Namespace).filter
          (fun n => goTrimSpace n ≠ "")).dedup.length)) := by
  refine ⟨?_, ?_, ?_⟩
  · unfold mutationIssues
    by_cases he : recs.isEmpty
    · rw [if_pos he]
      simp
    · rw [if_neg he]
      rw [List.countP_append]
      have h1 : ((provLoop [] [] [] recs).1.toList).countP perRec ≤ 1 := by
        cases (provLoop [] [] [] recs).1 with
        | none => simp
        | some s =>
          simp [List.countP_cons]
          split <;> simp
      have h2 : ((if 1 < (provLoop [] [] [] recs).2.length
          then ["provenance: mixed external_ref namespaces detected"] else []).countP
            perRec) = 0 := by
        split
        · decide
        · decide
      omega
  · have h2 := provLoop_none_iff recs [] [] []
    constructor
    · intro hnone
      obtain ⟨a, -, c, d, -⟩ := h2.mp hnone
      exact ⟨a, c, d⟩
    · rintro ⟨a, c, d⟩
      exact h2.mpr ⟨a, fun i _ => List.not_mem_nil i, c, d, fun x _ => List.not_mem_nil x⟩
  · intro hnone
    obtain ⟨hmem, hnd⟩ := provLoop_nss_none recs [] [] [] hnone
    unfold mutationIssues
    by_cases he : recs.isEmpty
    · rw [if_pos he]
      have hrecs : recs = [] := by
        cases recs with
        | nil => rfl
        | cons a as => exact absurd he (by simp)
      simp [hrecs]
    · rw [if_neg he, hnone]
      have hlen : (provLoop [] [] [] recs).2.length =
          ((recs.map MutationRecord.Namespace).filter
            (fun n => goTrimSpace n ≠ "")).dedup.length := by
        have hperm : (provLoop [] [] [] recs).2.Perm
            ((recs.map MutationRecord.Namespace).filter
              (fun n => goTrimSpace n ≠ "")).dedup := by
          rw [List.perm_ext_iff_of_nodup (hnd List.nodup_nil) (List.nodup_dedup _)]
          intro a
          rw [hmem a, List.mem_dedup, List.mem_filter, List.mem_map]
          constructor
          · rintro (h0 | ⟨m, hm, hne, rfl⟩)
            · exact absurd h0 (List.not_mem_nil a)
            · exact ⟨⟨m, hm, rfl⟩, by simpa using hne⟩
          · rintro ⟨⟨m, hm, rfl⟩, hne⟩
            exact Or.inr ⟨m, hm, by simpa using hne, rfl⟩
        exact hperm.length_eq
      rw [← hlen]
      by_cases hc : 1 < (provLoop [] [] [] recs).2.length
      · simp [hc]
      · simp [hc]

/-- Two clean mutation records in different namespaces. -/
def demoCleanMuts : List MutationRecord :=
  [{ LedgerID := 1, Timestamp := 0, type := "t", ID := "a", source := "s", hash := "",
     ExternalRef := "k:1", Namespace := "k", Offset := 1 },
   { LedgerID := 2, Timestamp := 0, type := "t", ID := "b", source := "s", hash := "",
     ExternalRef := "j:2", Namespace := "j", Offset := 2 }]

/-- Witness for C8 (amended): a clean pass over two namespaces emits the
mixed-namespaces issue. -/
theorem provenance_pass_witness :
    "provenance: mixed external_ref namespaces detected" ∈ mutationIssues demoCleanMuts := by
  have h := (provenance_pass_spec demoCleanMuts).2.2 (by decide)
  exact h.mpr (by decide)

/-! ## Reconstruction at a target time (`ReconstructAtTime` in
`reconstructor.go`) and claim C5 -/

/-- The four payload decoders `ReconstructAtTime` applies through
`collectors.ParseJSON` (Go `encoding/json` with `DisallowUnknownFields`:
standard-library code outside this repository, so the decoders enter the
embedding as explicit function parameters; `Except.error` carries the decode
error message). -/
structure ParseFuns where
  code : String → Except String CodePayload
  config : String → Except String ConfigPayload
  env : String → Except String EnvironmentPayload
  mutation : String → Except String MutationPayload

/-- `List` in `ledger.go` (`ListQuery`): time bounds apply only when
positive, the limit defaults to 100 when non-positive, and results are in
ascending id order (the table's order). -/
def listRecords (l : List Record) (since untilT limitN : Int) : List Record :=
  (l.filter (fun r =>
    decide ((0 < since → since ≤ r.timestamp) ∧ (0 < untilT → r.timestamp ≤ untilT)))).take
      (if limitN ≤ 0 then (100 : Int) else limitN).toNat

/-- One iteration of `ReconstructAtTime`'s record loop: skip records past the
target time, decode by kind, record a parse-error issue on failure, and
overwrite the slot (or append the mutation) on success. Go sets
`HasMutations` to `len(state.Mutations) > 0` right after appending, which is
always true. -/
def reconStep (pf : ParseFuns) (targetTime : Int)
    (acc : SnapshotState × CoverageReport × List String) (r : Record) :
    SnapshotState × CoverageReport × List String :=
  if r.timestamp > targetTime then acc
  else if r.type = "code" then
    match pf.code r.payload with
    | .error e => (acc.1, acc.2.1, acc.2.2 ++ ["code parse error: " ++ e])
    | .ok cp => ({ acc.1 with code := some cp }, { acc.2.1 with hasCode := true }, acc.2.2)
  else if r.type = "config" then
    match pf.config r.payload with
    | .error e => (acc.1, acc.2.1, acc.2.2 ++ ["config parse error: " ++ e])
    | .ok cp => ({ acc.1 with config := some cp }, { acc.2.1 with hasConfig := true }, acc.2.2)
  else if r.type = "environment" then
    match pf.env r.payload with
    | .error e => (acc.1, acc.2.1, acc.2.2 ++ ["environment parse error: " ++ e])
    | .ok ep =>
      ({ acc.1 with environment := some ep }, { acc.2.1 with hasEnvironment := true }, acc.2.2)
  else if r.type = "mutation" then
    match pf.mutation r.payload with
    | .error e => (acc.1, acc.2.1, acc.2.2 ++ ["mutation parse error: " ++ e])
    | .ok mp =>
      ({ acc.1 with
          mutations := acc.1.mutations ++ [mp],
          mutationRecords := acc.1.mutationRecords ++
            [{ LedgerID := r.id, Timestamp := r.timestamp, type := mp.type, ID := mp.ID,
               source := mp.source, hash := mp.hash, ExternalRef := mp.externalRef,
               Namespace := (parseExternalRef mp.externalRef).1,
               Offset := (parseExternalRef mp.externalRef).2.1 }] },
        { acc.2.1 with hasMutations := true }, acc.2.2)
  else acc

/-- The record loop's initial accumulator: empty snapshot state, empty
coverage, no issues. -/
def reconInit (targetTime : Int) : SnapshotState × CoverageReport × List String :=
  ({ timestamp := targetTime, code := none, config := none, environment := none,
     mutations := [], mutationRecords := [] },
   { hasCode := false, hasConfig := false, hasEnvironment := false,
     hasMutations := false, complete := false }, [])

/-- The record loop of `ReconstructAtTime`, from the empty snapshot state. -/
def reconLoop (pf : ParseFuns) (targetTime : Int) (recs : List Record) :
    SnapshotState × CoverageReport × List String :=
  recs.foldl (reconStep pf targetTime) (reconInit targetTime)

/-- Comparator scan of `orderMutationRecords`: `(allNumeric, namespace,
sameNamespace)` with Go's break at the first unparsable ref. -/
def ordCheck : List MutationRecord → String → Bool → Bool × String × Bool
  | [], ns, same => (true, ns, same)
  | r :: rs, ns, same =>
    if (parseExternalRef r.ExternalRef).2.2 = false then (false, ns, same)
    else if ns = "" then ordCheck rs (parseExternalRef r.ExternalRef).1 same
    else if ns ≠ (parseExternalRef r.ExternalRef).1 then ordCheck rs ns false
    else ordCheck rs ns same

/-- Sort keys of `orderMutationRecords`'s numeric branch: the freshly parsed
offsets, ties by ledger id. Go's `sort.Slice` there captures `parsed` by
original position while swapping only `records`, so its exact permutation is
implementation-defined; it is modelled as a merge sort by the parsed keys.
No claim below depends on this ordering. -/
def ordOffLE (a b : MutationRecord) : Bool :=
  decide ((parseExternalRef a.ExternalRef).2.1 < (parseExternalRef b.ExternalRef).2.1 ∨
    ((parseExternalRef a.ExternalRef).2.1 = (parseExternalRef b.ExternalRef).2.1 ∧
      a.LedgerID ≤ b.LedgerID))

/-- `orderMutationRecords` in `reconstructor.go`. -/
def orderMutationRecords (records : List MutationRecord) : List MutationRecord :=
  if (ordCheck records "" true).1 && (ordCheck records "" true).2.2 then
    records.mergeSort ordOffLE
  else records.mergeSort tsLE

/-- `ReconstructionReport` in `reconstructor.go`, restricted to the fields
the claims mention; the wall-clock `RequestTime` and the `VerifyUpTo` proof
are omitted, and `State` is always present because the embedding has no I/O
failures. -/
structure ReconstructionReport where
  targetTime : Int
  success : Bool
  recordsMatched : Nat
  coverage : CoverageReport
  determinismScore : Int
  issues : List String
  replayPlan : Option ReplayPlan
  state : SnapshotState
deriving Inhabited

/-- `ReconstructAtTime` in `reconstructor.go`: list up to 10000 records at or
before the target time, run the record loop, order the mutations, then the
score, the replay plan, the provenance checks and the coverage warnings. -/
def ReconstructAtTime (pf : ParseFuns) (l : List Record) (targetTime : Int) :
    ReconstructionReport :=
  let recs := listRecords l 0 targetTime 10000
  let out := reconLoop pf targetTime recs
  let mrecs := if 1 < out.1.mutationRecords.length
    then orderMutationRecords out.1.mutationRecords else out.1.mutationRecords
  let state := { out.1 with mutationRecords := mrecs }
  let coverage := { out.2.1 with
    complete := out.2.1.hasCode && out.2.1.hasConfig &&
      out.2.1.hasEnvironment && out.2.1.hasMutations }
  { targetTime := targetTime, success := true, recordsMatched := recs.length,
    coverage := coverage,
    determinismScore := calculateDeterminismScore state coverage,
    issues := out.2.2 ++ applyProvenanceChecks state ++
      ((if coverage.hasCode then [] else ["warning: no code snapshot"]) ++
       (if coverage.hasConfig then [] else ["warning: no config snapshot"]) ++
       (if coverage.hasEnvironment then [] else ["warning: no environment snapshot"]) ++
       (if coverage.hasMutations then [] else ["warning: no mutations recorded"])),
    replayPlan := buildReplayPlan state.mutationRecords,
    state := state }

/-- What one record contributes to a typed slot: its parsed payload when it
is in time range, of the right kind and parses, else nothing. -/
def slotPick {α : Type} (parse : String → Except String α) (kind : String)
    (T : Int) (r : Record) : Option α :=
  if r.timestamp > T then none
  else if r.type = kind then (parse r.payload).toOption else none

/-- What one record contributes to the loop's issue list: a
`"<kind> parse error: …"` issue when its payload fails to decode. -/
def issuePick (pf : ParseFuns) (T : Int) (r : Record) : Option String :=
  if r.timestamp > T then none
  else if r.type = "code" then
    (match pf.code r.payload with
     | .error e => some ("code parse error: " ++ e)
     | .ok _ => none)
  else if r.type = "config" then
    (match pf.config r.payload with
     | .error e => some ("config parse error: " ++ e)
     | .ok _ => none)
  else if r.type = "environment" then
    (match pf.env r.payload with
     | .error e => some ("environment parse error: " ++ e)
     | .ok _ => none)
  else if r.type = "mutation" then
    (match pf.mutation r.payload with
     | .error e => some ("mutation parse error: " ++ e)
     | .ok _ => none)
  else none

theorem reconStep_config (pf : ParseFuns) (T : Int)
    (acc : SnapshotState × CoverageReport × List String) (r : Record) :
    (reconStep pf T acc r).1.config =
      (match slotPick pf.config "config" T r with
       | some cp => some cp
       | none => acc.1.config) := by
  unfold reconStep slotPick
  by_cases ht : r.timestamp > T
  · simp only [if_pos ht]
  · simp only [if_neg ht]
    by_cases hc : r.type = "code"
    · have hc2 : ¬(r.type = "config") := by rw [hc]; decide
      simp only [if_pos hc, if_neg hc2]
      cases pf.code r.payload <;> rfl
    · simp only [if_neg hc]
      by_cases hcf : r.type = "config"
      · simp only [if_pos hcf]
        cases pf.config r.payload <;> rfl
      · simp only [if_neg hcf]
        by_cases he : r.type = "environment"
        · simp only [if_pos he]
          cases pf.env r.payload <;> rfl
        · simp only [if_neg he]
          by_cases hm : r.type = "mutation"
          · simp only [if_pos hm]
            cases pf.mutation r.payload <;> rfl
          · simp only [if_neg hm]

theorem reconStep_code (pf : ParseFuns) (T : Int)
    (acc : SnapshotState × CoverageReport × List String) (r : Record) :
    (reconStep pf T acc r).1.code =
      (match slotPick pf.code "code" T r with
       | some cp => some cp
       | none => acc.1.code) := by
  unfold reconStep slotPick
  by_cases ht : r.timestamp > T
  · simp only [if_pos ht]
  · simp only [if_neg ht]
    by_cases hc : r.type = "code"
    · simp only [if_pos hc]
      cases pf.code r.payload <;> rfl
    · simp only [if_neg hc]
      by_cases hcf : r.type = "config"
      · simp only [if_pos hcf]
        cases pf.config r.payload <;> rfl
      · simp only [if_neg hcf]
        by_cases he : r.type = "environment"
        · simp only [if_pos he]
          cases pf.env r.payload <;> rfl
        · simp only [if_neg he]
          by_cases hm : r.type = "mutation"
          · simp only [if_pos hm]
            cases pf.mutation r.payload <;> rfl
          · simp only [if_neg hm]

theorem reconStep_env (pf : ParseFuns) (T : Int)
    (acc : SnapshotState × CoverageReport × List String) (r : Record) :
    (reconStep pf T acc r).1.environment =
      (match slotPick pf.env "environment" T r with
       | some ep => some ep
       | none => acc.1.environment) := by
  unfold reconStep slotPick
  by_cases ht : r.timestamp > T
  · simp only [if_pos ht]
  · simp only [if_neg ht]
    by_cases hc : r.type = "code"
    · have hc2 : ¬(r.type = "environment") := by rw [hc]; decide
      simp only [if_pos hc, if_neg hc2]
      cases pf.code r.payload <;> rfl
    · simp only [if_neg hc]
      by_cases hcf : r.type = "config"
      · have hc2 : ¬(r.type = "environment") := by rw [hcf]; decide
        simp only [if_pos hcf, if_neg hc2]
        cases pf.config r.payload <;> rfl
      · simp only [if_neg hcf]
        by_cases he : r.type = "environment"
        · simp only [if_pos he]
          cases pf.env r.payload <;> rfl
        · simp only [if_neg he]
          by_cases hm : r.type = "mutation"
          · simp only [if_pos hm]
            cases pf.mutation r.payload <;> rfl
          · simp only [if_neg hm]

theorem reconStep_issues (pf : ParseFuns) (T : Int)
    (acc : SnapshotState × CoverageReport × List String) (r : Record) :
    (reconStep pf T acc r).2.2 = acc.2.2 ++ (issuePick pf T r).toList := by
  unfold reconStep issuePick
  by_cases ht : r.timestamp > T
  · simp only [if_pos ht]
    simp
  · simp only [if_neg ht]
    by_cases hc : r.type = "code"
    · simp only [if_pos hc]
      cases pf.code r.payload <;> simp
    · simp only [if_neg hc]
      by_cases hcf : r.type = "config"
      · simp only [if_pos hcf]
        cases pf.config r.payload <;> simp
      · simp only [if_neg hcf]
        by_cases he : r.type = "environment"
        · simp only [if_pos he]
          cases pf.env r.payload <;> simp
        · simp only [if_neg he]
          by_cases hm : r.type = "mutation"
          · simp only [if_pos hm]
            cases pf.mutation r.payload <;> simp
          · simp only [if_neg hm]
            simp

theorem foldl_config (pf : ParseFuns) (T : Int) (recs : List Record) :
    ∀ acc, ((recs.foldl (reconStep pf T) acc).1.config) =
      (match (recs.filterMap (slotPick pf.config "config" T)).getLast? with
       | some cp => some cp
       | none => acc.1.config) := by
  induction recs using List.reverseRecOn with
  | nil => intro acc; rfl
  | append_singleton xs x ih =>
    intro acc
    rw [List.foldl_append]
    simp only [List.foldl_cons, List.foldl_nil]
    rw [reconStep_config, List.filterMap_append]
    cases hx : slotPick pf.config "config" T x with
    | some cp =>
      rw [show List.filterMap (slotPick pf.config "config" T) [x] = [cp] by
        simp [List.filterMap_cons, hx]]
      rw [List.getLast?_concat]
    | none =>
      rw [show List.filterMap (slotPick pf.config "config" T) [x] = [] by
        simp [List.filterMap_cons, hx]]
      rw [List.append_nil]
      exact ih acc

theorem foldl_code (pf : ParseFuns) (T : Int) (recs : List Record) :
    ∀ acc, ((recs.foldl (reconStep pf T) acc).1.code) =
      (match (recs.filterMap (slotPick pf.code "code" T)).getLast? with
       | some cp => some cp
       | none => acc.1.code) := by
  induction recs using List.reverseRecOn with
  | nil => intro acc; rfl
  | append_singleton xs x ih =>
    intro acc
    rw [List.foldl_append]
    simp only [List.foldl_cons, List.foldl_nil]
    rw [reconStep_code, List.filterMap_append]
    cases hx : slotPick pf.code "code" T x with
    | some cp =>
      rw [show List.filterMap (slotPick pf.code "code" T) [x] = [cp] by
        simp [List.filterMap_cons, hx]]
      rw [List.getLast?_concat]
    | none =>
      rw [show List.filterMap (slotPick pf.code "code" T) [x] = [] by
        simp [List.filterMap_cons, hx]]
      rw [List.append_nil]
      exact ih acc

theorem foldl_env (pf : ParseFuns) (T : Int) (recs : List Record) :
    ∀ acc, ((recs.foldl (reconStep pf T) acc).1.environment) =
      (match (recs.filterMap (slotPick pf.env "environment" T)).getLast? with
       | some ep => some ep
       | none => acc.1.environment) := by
  induction recs using List.reverseRecOn with
  | nil => intro acc; rfl
  | append_singleton xs x ih =>
    intro acc
    rw [List.foldl_append]
    simp only [List.foldl_cons, List.foldl_nil]
    rw [reconStep_env, List.filterMap_append]
    cases hx : slotPick pf.env "environment" T x with
    | some ep =>
      rw [show List.filterMap (slotPick pf.env "environment" T) [x] = [ep] by
        simp [List.filterMap_cons, hx]]
      rw [List.getLast?_concat]
    | none =>
      rw [show List.filterMap (slotPick pf.env "environment" T) [x] = [] by
        simp [List.filterMap_cons, hx]]
      rw [List.append_nil]
      exact ih acc

theorem foldl_issues (pf : ParseFuns) (T : Int) (recs : List Record) :
    ∀ acc, ((recs.foldl (reconStep pf T) acc).2.2) =
      acc.2.2 ++ recs.filterMap (issuePick pf T) := by
  induction recs with
  | nil => intro acc; simp
  | cons r rest ih =>
    intro acc
    rw [List.foldl_cons, ih, reconStep_issues, List.filterMap_cons]
    cases hx : issuePick pf T r <;> simp

/-- C5 (amended): for each kind in `{code, config, environment}`,
reconstruction at `T` fills the slot with the payload of the last listed
record of that kind whose payload parses successfully (the listing covers
the first 10000 records with timestamp at or before `T`, in ascending id
order); each record of such kind whose payload fails to parse contributes a
`"<kind> parse error: …"` issue in scan order, these parse issues are
exactly the loop's issue list and sit at the front of the report's issues;
the slot is left empty only when no listed record of that kind parses. -/
theorem reconstruct_slots_spec (pf : ParseFuns) (l : List Record) (T : Int) :
    ((ReconstructAtTime pf l T).state.code =
      ((listRecords l 0 T 10000).filterMap (slotPick pf.code "code" T)).getLast?) ∧
    ((ReconstructAtTime pf l T).state.config =
      ((listRecords l 0 T 10000).filterMap (slotPick pf.config "config" T)).getLast?) ∧
    ((ReconstructAtTime pf l T).state.environment =
      ((listRecords l 0 T 10000).filterMap (slotPick pf.env "environment" T)).getLast?) ∧
    ((ReconstructAtTime pf l T).state.config = none ↔
      ∀ r ∈ listRecords l 0 T 10000, slotPick pf.config "config" T r = none) ∧
    ((reconLoop pf T (listRecords l 0 T 10000)).2.2 =
      (listRecords l 0 T 10000).filterMap (issuePick pf T)) ∧
    (∃ tail, (ReconstructAtTime pf l T).issues =
      (listRecords l 0 T 10000).filterMap (issuePick pf T) ++ tail) := by
  have hcode : (ReconstructAtTime pf l T).state.code =
      ((listRecords l 0 T 10000).filterMap (slotPick pf.code "code" T)).getLast? := by
    show ((listRecords l 0 T 10000).foldl (reconStep pf T) (reconInit T)).1.code = _
    rw [foldl_code]
    cases hg : ((listRecords l 0 T 10000).filterMap (slotPick pf.code "code" T)).getLast? <;> rfl
  have hconfig : (ReconstructAtTime pf l T).state.config =
      ((listRecords l 0 T 10000).filterMap (slotPick pf.config "config" T)).getLast? := by
    show ((listRecords l 0 T 10000).foldl (reconStep pf T) (reconInit T)).1.config = _
    rw [foldl_config]
    cases hg : ((listRecords l 0 T 10000).filterMap
      (slotPick pf.config "config" T)).getLast? <;> rfl
  have henv : (ReconstructAtTime pf l T).state.environment =
      ((listRecords l 0 T 10000).filterMap (slotPick pf.env "environment" T)).getLast? := by
    show ((listRecords l 0 T 10000).foldl (reconStep pf T) (reconInit T)).1.environment = _
    rw [foldl_env]
    cases hg : ((listRecords l 0 T 10000).filterMap
      (slotPick pf.env "environment" T)).getLast? <;> rfl
  have hissues : (reconLoop pf T (listRecords l 0 T 10000)).2.2 =
      (listRecords l 0 T 10000).filterMap (issuePick pf T) := by
    unfold reconLoop
    rw [foldl_issues]
    rfl
  refine ⟨hcode, hconfig, henv, ?_, hissues, ?_⟩
  · rw [hconfig]
    rw [List.getLast?_eq_none_iff]
    rw [List.filterMap_eq_nil_iff]
  · refine ⟨applyProvenanceChecks (ReconstructAtTime pf l T).state ++
      ((if (ReconstructAtTime pf l T).coverage.hasCode then []
          else ["warning: no code snapshot"]) ++
       (if (ReconstructAtTime pf l T).coverage.hasConfig then []
          else ["warning: no config snapshot"]) ++
       (if (ReconstructAtTime pf l T).coverage.hasEnvironment then []
          else ["warning: no environment snapshot"]) ++
       (if (ReconstructAtTime pf l T).coverage.hasMutations then []
          else ["warning: no mutations recorded"])), ?_⟩
    show (reconLoop pf T (listRecords l 0 T 10000)).2.2 ++ _ ++ _ = _
    rw [hissues, List.append_assoc]
    rfl

/-- Modelled from the spec: §4.2's parse operation (Go `encoding/json`
decoding, library code outside this repository), fixed concretely so the
counterexample can be evaluated: it decodes exactly the canonical config
payload used below and rejects every other input as malformed. -/
def demoParse : ParseFuns :=
  { code := fun _ => .error "unsupported",
    config := fun s =>
      if s = "cfg-good" then .ok ⟨"app.yaml", "1", "", "k: v"⟩
      else .error "invalid character",
    env := fun _ => .error "unsupported",
    mutation := fun _ => .error "unsupported" }

/-- A ledger with two config records: the later one (largest id) fails to
decode. -/
def demoCfgLedger : List Record :=
  buildLedger [⟨1000, "config", "t", "cfg-good"⟩, ⟨1001, "config", "t", "cfg-bad"⟩]

/-- Counterexample to C5 as stated: the record of kind config with the
largest id fails to parse, the issue is recorded, but the slot is NOT left
empty: it keeps the earlier record's successfully parsed payload. -/
theorem recon_parse_error_counterexample :
    (ReconstructAtTime demoParse demoCfgLedger 2000).state.config =
      some ⟨"app.yaml", "1", "", "k: v"⟩ ∧
    "config parse error: invalid character" ∈
      (ReconstructAtTime demoParse demoCfgLedger 2000).issues :=
  ⟨by decide, by decide⟩

end StateLedger
